import Mathlib

/-!
# Verification of the slick-autobuild orchestrator

A shallow embedding, in Lean 4, of the core logic of the `slick-autobuild`
CLI build orchestrator (Go): the matrix planner (`internal/planner`),
the cache-key deriver and directory cache (`internal/cache`), the task
scheduler (`runBuild` in `main.go`), the image publisher
(`internal/docker`) and the exit-code classifier (`fatal` in `main.go`).

Modelling conventions:

* Filesystem paths are lists of components (`FPath := List String`).  A Go
  path string such as `"out/app/1.0"` corresponds to the component list
  `["out", "app", "1.0"]`; `filepath.Join` is modelled as list append
  followed by the `Clean` normalisation on components, and
  `strings.Contains(Clean(p), "..")` is checked per component (the
  pattern `".."` contains no separator, so any occurrence of `".."` in
  the joined string lies inside a single component).
* The filesystem is an explicit state (`FS`): a list of (path, data)
  file entries plus a list of created directories.  `os.ReadFile`,
  `os.Stat`, `os.MkdirAll`, `filepath.Walk` and file copying are
  modelled as pure functions over this state.  Host I/O faults (disk
  errors, permissions) are not modelled; the error paths that are
  modelled are exactly the ones the repository's own code introduces
  (missing walk root, path-traversal validation, missing cache key).
* Byte strings are `List Nat` (each entry < 256).  String-to-byte
  conversion maps each character to its code point, which coincides
  with Go's UTF-8 bytes on the ASCII data used throughout.
* SHA-256 (Go `crypto/sha256`) is implemented concretely below, so the
  cache key really is the first 12 hex characters of a SHA-256 digest
  of the byte stream built by `cache.Key`.
-/

/-- A filesystem path, as its list of `/`-separated components. -/
abbrev FPath : Type := List String

/-- Helper for `splitComps`: split a character list at every `'/'`. -/
def splitCompsAux : List Char → List Char → List String
  | [], acc => [⟨acc.reverse⟩]
  | c :: cs, acc =>
    if c = '/' then ⟨acc.reverse⟩ :: splitCompsAux cs []
    else splitCompsAux cs (c :: acc)

/-- Split a Go path string into components (`strings.Split(s, "/")`).
Absolute paths are out of scope (the orchestrator only builds relative
paths such as `out/...` and `.buildcache/...`). -/
def splitComps (s : String) : FPath := splitCompsAux s.data []

/-- One step of `filepath.Clean` on components: `""` and `"."` vanish,
`".."` pops a previous component when possible and is kept otherwise
(relative-path semantics of Go's `filepath.Clean`). -/
def cleanStep (acc : List String) (c : String) : List String :=
  if c = "" ∨ c = "." then acc
  else if c = ".." then
    match acc.getLast? with
    | some l => if l = ".." then acc ++ [c] else acc.dropLast
    | none => [c]
  else acc ++ [c]

/-- `filepath.Clean` on a component list (relative-path semantics). -/
def cleanComps (p : FPath) : FPath := p.foldl cleanStep []

/-- `filepath.Join` of two component lists: concatenate, then clean. -/
def joinP (a b : FPath) : FPath := cleanComps (a ++ b)

/-- Whether a single component contains `".."` as a substring
(two consecutive dots anywhere in it). -/
def hasDotDotPair (c : String) : Bool :=
  (c.data.zip c.data.tail).any (fun ab => ab.1 = '.' ∧ ab.2 = '.')

/-- `validatePath` (shared by `main.go`, `internal/cache`,
`internal/runner`): clean the path, then reject it when the cleaned
string contains `".."`.  On components: some cleaned component contains
two consecutive dots. -/
def validPathB (p : FPath) : Bool :=
  !((cleanComps p).any hasDotDotPair)

/-- A component that survives `cleanComps` untouched and passes
`validPathB`: nonempty, not `"."`, and without consecutive dots. -/
def compOk (c : String) : Bool :=
  c ≠ "" && c ≠ "." && !hasDotDotPair c

/-- All components of a path are plain (see `compOk`). -/
def compsOk (p : FPath) : Bool := p.all compOk

/-- `artifact.Manifest` (internal/artifact): the provenance record
written per task. -/
structure Manifest where
  project : String
  kind : String
  toolchain : String
  version : String
  hash : String
  buildTimeMs : Int
  reused : Bool
  createdAt : String
deriving DecidableEq, Repr

/-- Bytes of an ASCII string: one code point per character (coincides
with Go's UTF-8 bytes on the ASCII strings this program handles). -/
def strBytes (s : String) : List Nat := s.data.map Char.toNat

/-- Strict lexicographic order on byte lists. -/
def lexLtN : List Nat → List Nat → Bool
  | [], [] => false
  | [], _ :: _ => true
  | _ :: _, [] => false
  | a :: as, b :: bs => if a < b then true else if a = b then lexLtN as bs else false

/-- Go's byte-wise string comparison `a < b` (UTF-8 byte order, which
on code points is code-point order). -/
def strLtB (a b : String) : Bool := lexLtN (strBytes a) (strBytes b)

/-- Go's byte-wise string comparison `a <= b`. -/
def strLeB (a b : String) : Bool := !(strLtB b a)

/-- Model of `json.MarshalIndent` for a manifest: some concrete byte
encoding of the record.  Only its existence matters (a manifest file is
never among the lock files fed into the cache key). -/
def encodeManifest (m : Manifest) : List Nat :=
  strBytes m.project ++ [10] ++ strBytes m.kind ++ [10] ++ strBytes m.toolchain ++ [10]
    ++ strBytes m.version ++ [10] ++ strBytes m.hash ++ [10]
    ++ (if m.reused then [116] else [102]) ++ [10] ++ strBytes m.createdAt

/-- Contents of one file: raw bytes, or a written manifest record. -/
inductive FileData where
  | bytes (bs : List Nat)
  | manifestFile (m : Manifest)
deriving DecidableEq, Repr

/-- The byte contents of a file (manifests as their JSON encoding). -/
def dataBytes : FileData → List Nat
  | .bytes bs => bs
  | .manifestFile m => encodeManifest m

/-- The filesystem state: file entries (path ↦ data) and the set of
directories created so far. -/
structure FS where
  files : List (FPath × FileData)
  dirs : List FPath
deriving DecidableEq, Repr

/-- `os.ReadFile`: the data of the first entry at this exact path. -/
def readFile (fs : FS) (p : FPath) : Option FileData :=
  (fs.files.find? (fun e => e.1 == p)).map (·.2)

/-- `os.Stat` succeeding on a file at this exact path. -/
def statFile (fs : FS) (p : FPath) : Bool :=
  (readFile fs p).isSome

/-- Write (create or overwrite) the file at `p`. -/
def setFile (fs : FS) (p : FPath) (d : FileData) : FS :=
  { fs with files := (p, d) :: fs.files.filter (fun e => !(e.1 == p)) }

/-- `os.MkdirAll` target directory (parents left implicit; only exact
directory membership or files underneath are ever queried). -/
def addDir (fs : FS) (p : FPath) : FS :=
  { fs with dirs := if fs.dirs.contains p then fs.dirs else p :: fs.dirs }

/-- A directory exists: it was created, or some file lies strictly
under it. -/
def dirExists (fs : FS) (p : FPath) : Bool :=
  fs.dirs.contains p ||
    fs.files.any (fun e => p.isPrefixOf e.1 && p.length != e.1.length)

/-- The file entries lying strictly under directory `src`. -/
def filesUnder (fs : FS) (src : FPath) : List (FPath × FileData) :=
  fs.files.filter (fun e => src.isPrefixOf e.1 && src.length != e.1.length)

/-! ## SHA-256 (Go `crypto/sha256`)

A direct implementation over byte lists (`List Nat`), with 32-bit words
as natural numbers reduced modulo `2^32`. -/

/-- Addition modulo `2^32`. -/
def add32 (a b : Nat) : Nat := (a + b) % 4294967296

/-- Right rotation of a 32-bit word. -/
def rotr32 (n x : Nat) : Nat :=
  ((x >>> n) ||| (x <<< (32 - n))) % 4294967296

/-- SHA-256 small sigma 0. -/
def ssig0 (x : Nat) : Nat := (rotr32 7 x) ^^^ (rotr32 18 x) ^^^ (x >>> 3)

/-- SHA-256 small sigma 1. -/
def ssig1 (x : Nat) : Nat := (rotr32 17 x) ^^^ (rotr32 19 x) ^^^ (x >>> 10)

/-- SHA-256 big sigma 0. -/
def bsig0 (x : Nat) : Nat := (rotr32 2 x) ^^^ (rotr32 13 x) ^^^ (rotr32 22 x)

/-- SHA-256 big sigma 1. -/
def bsig1 (x : Nat) : Nat := (rotr32 6 x) ^^^ (rotr32 11 x) ^^^ (rotr32 25 x)

/-- SHA-256 round constants. -/
def sha256K : List Nat :=
  [1116352408, 1899447441, 3049323471, 3921009573, 961987163, 1508970993,
   2453635748, 2870763221, 3624381080, 310598401, 607225278, 1426881987,
   1925078388, 2162078206, 2614888103, 3248222580, 3835390401, 4022224774,
   264347078, 604807628, 770255983, 1249150122, 1555081692, 1996064986,
   2554220882, 2821834349, 2952996808, 3210313671, 3336571891, 3584528711,
   113926993, 338241895, 666307205, 773529912, 1294757372, 1396182291,
   1695183700, 1986661051, 2177026350, 2456956037, 2730485921, 2820302411,
   3259730800, 3345764771, 3516065817, 3600352804, 4094571909, 275423344,
   430227734, 506948616, 659060556, 883997877, 958139571, 1322822218,
   1537002063, 1747873779, 1955562222, 2024104815, 2227730452, 2361852424,
   2428436474, 2756734187, 3204031479, 3329325298]

/-- SHA-256 initial hash state. -/
def sha256Init : List Nat :=
  [1779033703, 3144134277, 1013904242, 2773480762,
   1359893119, 2600822924, 528734635, 1541459225]

/-- Helper for `chunkList`, structurally recursive on a fuel bound. -/
def chunkAux (n : Nat) : Nat → List Nat → List (List Nat)
  | 0, _ => []
  | fuel + 1, l => if l = [] then [] else l.take n :: chunkAux n fuel (l.drop n)

/-- Split a list into chunks of `n` elements (`n > 0`). -/
def chunkList (n : Nat) (l : List Nat) : List (List Nat) :=
  chunkAux n l.length l

/-- Big-endian bytes of `v`, `n` bytes wide. -/
def bytesBE (n v : Nat) : List Nat :=
  (List.range n).map (fun i => (v >>> ((n - 1 - i) * 8)) % 256)

/-- Combine four big-endian bytes into one 32-bit word. -/
def wordOfBytes (bs : List Nat) : Nat :=
  bs.foldl (fun acc b => acc * 256 + b) 0

/-- SHA-256 padding: append `0x80`, zeros up to 56 mod 64, and the
64-bit big-endian bit length. -/
def sha256Pad (msg : List Nat) : List Nat :=
  msg ++ [128] ++ List.replicate ((119 - msg.length % 64) % 64) 0
      ++ bytesBE 8 (msg.length * 8)

/-- Extend the 16 message words to the 64-entry schedule. -/
def sha256Schedule (ws : List Nat) : List Nat :=
  (List.range 48).foldl
    (fun w i =>
      w ++ [(ssig1 (w.getD (i + 14) 0) + w.getD (i + 9) 0 +
             ssig0 (w.getD (i + 1) 0) + w.getD i 0) % 4294967296])
    ws

/-- One SHA-256 compression round. -/
def sha256Round (w : List Nat) (st : List Nat) (i : Nat) : List Nat :=
  let a := st.getD 0 0
  let b := st.getD 1 0
  let c := st.getD 2 0
  let d := st.getD 3 0
  let e := st.getD 4 0
  let f := st.getD 5 0
  let g := st.getD 6 0
  let h := st.getD 7 0
  let ch := (e &&& f) ^^^ ((4294967295 ^^^ e) &&& g)
  let maj := (a &&& b) ^^^ (a &&& c) ^^^ (b &&& c)
  let t1 := (h + bsig1 e + ch + sha256K.getD i 0 + w.getD i 0) % 4294967296
  let t2 := (bsig0 a + maj) % 4294967296
  [add32 t1 t2, a, b, c, add32 d t1, e, f, g]

/-- Compress one 64-byte block into the running hash state. -/
def sha256Block (h : List Nat) (block : List Nat) : List Nat :=
  let w := sha256Schedule ((chunkList 4 block).map wordOfBytes)
  let st := (List.range 64).foldl (sha256Round w) h
  (h.zip st).map (fun ab => add32 ab.1 ab.2)

/-- SHA-256 digest (32 bytes) of a byte list. -/
def sha256 (msg : List Nat) : List Nat :=
  let final := (chunkList 64 (sha256Pad msg)).foldl sha256Block sha256Init
  final.foldr (fun wrd acc => bytesBE 4 wrd ++ acc) []

/-- Lowercase hex digit for `n < 16`. -/
def hexDigit (n : Nat) : Char := "0123456789abcdef".data.getD n 'x'

/-- Lowercase hex string of a byte list (`fmt.Sprintf("%x", ...)`). -/
def hexOfBytes (bs : List Nat) : String :=
  ⟨bs.foldr (fun b acc => hexDigit (b / 16) :: hexDigit (b % 16) :: acc) []⟩

/-! ## The cache (`internal/cache/cache.go`) -/

/-- `planner.PTask`: the atomic build unit. -/
structure PTask where
  path : String
  kind : String
  version : String
deriving DecidableEq, Repr

/-- `findLockFiles`: glob patterns for the `dotnet` kind. -/
def dotnetPatterns : List String :=
  ["*.csproj", "*.fsproj", "*.vbproj", "packages.lock.json"]

/-- One `filepath.Glob` pattern of `findLockFiles` matched against a
file name: `*.ext` patterns match any name with that suffix (the `*`
matches any run of non-separator characters), a literal pattern
matches exactly. -/
def globMatch (pattern name : String) : Bool :=
  match pattern.data with
  | '*' :: rest => rest.isSuffixOf name.data
  | _ => name == pattern

/-- String order on component paths: compare the joined Go strings
(`sort.Strings`). -/
def pathKey (p : FPath) : String := String.intercalate "/" p

/-- `filepath.Glob(filepath.Join(projectDir, pattern))`: the files
directly inside `projectDir` whose base name matches `pattern`,
sorted by path string (Go's `Glob` sorts its matches). -/
def globIn (fs : FS) (projectDir : FPath) (pattern : String) : List FPath :=
  ((fs.files.filter
      (fun e => projectDir.isPrefixOf e.1 && e.1.length == projectDir.length + 1 &&
        (match e.1.getLast? with
         | some base => globMatch pattern base
         | none => false))).map
    (·.1)).insertionSort (fun p q => strLeB (pathKey p) (pathKey q) = true)

/-- `findLockFiles(projectDir, kind)`: the lock/definition files whose
contents enter the cache key. -/
def findLockFiles (fs : FS) (projectDir : FPath) (kind : String) : List FPath :=
  if kind = "dotnet" then
    dotnetPatterns.foldl (fun acc pat => acc ++ globIn fs projectDir pat) []
  else if kind = "node" then
    ([joinP projectDir ["package.json"], joinP projectDir ["package-lock.json"],
      joinP projectDir ["yarn.lock"], joinP projectDir ["pnpm-lock.yaml"]]).filter
      (fun f => statFile fs f)
  else []

/-- One step of the lock-file hashing loop in `cache.Key`: skip a path
that fails `validatePath`, skip a file that cannot be read, otherwise
append the file's bytes. -/
def lockStep (fs : FS) (acc : List Nat) (f : FPath) : List Nat :=
  if validPathB f then
    match readFile fs f with
    | some d => acc ++ dataBytes d
    | none => acc
  else acc

/-- The concatenated contents of the (sorted) lock files — exactly the
bytes `cache.Key` feeds into the hash after the identity strings. -/
def lockBytes (fs : FS) (files : List FPath) : List Nat :=
  files.foldl (lockStep fs) []

/-- The full byte stream `cache.Key` hashes: kind, version, path, then
the sorted lock-file contents. -/
def keyInput (task : PTask) (workspaceRoot : FPath) (fs : FS) : List Nat :=
  let projectDir := joinP workspaceRoot (splitComps task.path)
  let lockFiles := (findLockFiles fs projectDir task.kind).insertionSort
    (fun p q => strLeB (pathKey p) (pathKey q) = true)
  strBytes task.kind ++ strBytes task.version ++ strBytes task.path
    ++ lockBytes fs lockFiles

/-- `cache.Key(task, workspaceRoot)`: the first 12 hex characters of
the SHA-256 digest of `keyInput`, together with the error value (which
is always `nil` in the source). -/
def cacheKey (task : PTask) (workspaceRoot : FPath) (fs : FS) : String × Option String :=
  (⟨(hexOfBytes (sha256 (keyInput task workspaceRoot fs))).data.take 12⟩, none)

/-- The cache entry directory for a key: `filepath.Join(".buildcache", key)`. -/
def cacheDirOf (key : String) : FPath := joinP [".buildcache"] (splitComps key)

/-- `cache.Exists(key)`: a manifest file is present under the key's
directory. -/
def cacheExists (key : String) (fs : FS) : Bool :=
  statFile fs (joinP (cacheDirOf key) ["manifest.json"])

/-- `copyFile(src, dest)` on one walked entry, threaded through the
walk state: `validatePath` both ends, then write the destination.  A
previous walk error short-circuits the rest (`filepath.Walk` aborts on
the first error returned by the walk function). -/
def copyOne (src dest : FPath) (st : FS × Option String)
    (e : FPath × FileData) : FS × Option String :=
  match st with
  | (fs, some err) => (fs, some err)
  | (fs, none) =>
    let destPath := joinP dest (e.1.drop src.length)
    if !validPathB e.1 then (fs, some "invalid source path: path traversal detected")
    else if !validPathB destPath then
      (fs, some "invalid destination path: path traversal detected")
    else (setFile (addDir fs destPath.dropLast) destPath e.2, none)

/-- `copyDir(src, dest)`: `filepath.Walk` over `src`.  A missing walk
root is the error case; otherwise the destination directory tree is
re-created and every file under `src` is copied to its relative
position under `dest`.  The walk's lexical visiting order is
immaterial to the final state (relative paths under `src` are
distinct), so entries are processed in stored order, directories
first. -/
def copyDir (fs : FS) (src dest : FPath) : FS × Option String :=
  if !dirExists fs src then
    (fs, some "walk error: no such file or directory")
  else
    let fs0 := addDir fs (joinP dest [])
    let fs1 := (fs.dirs.filter
        (fun d => src.isPrefixOf d && src.length != d.length)).foldl
      (fun a d => addDir a (joinP dest (d.drop src.length))) fs0
    (filesUnder fs src).foldl (copyOne src dest) (fs1, none)

/-- `cache.Store(key, sourceDir)`: `MkdirAll` the key's directory
(this happens even when the subsequent copy fails), then copy the
source tree into it. -/
def cacheStore (key : String) (sourceDir : FPath) (fs : FS) : FS × Option String :=
  let cacheDir := cacheDirOf key
  copyDir (addDir fs cacheDir) sourceDir cacheDir

/-- `cache.Restore(key, destDir)`: NotFound when no manifest is cached
under the key, otherwise `MkdirAll` the destination and copy the
entry's tree into it. -/
def cacheRestore (key : String) (destDir : FPath) (fs : FS) : FS × Option String :=
  if !cacheExists key fs then
    (fs, some ("cache key not found: " ++ key))
  else
    copyDir (addDir fs destDir) (cacheDirOf key) destDir

/-- `artifact.WriteManifest(outDir, m)`: `MkdirAll(outDir)` then write
`manifest.json` (with `CreatedAt` stamped by the caller-supplied
clock value, standing for `time.Now()`). -/
def writeManifest (outDir : FPath) (m : Manifest) (now : String) (fs : FS) : FS :=
  setFile (addDir fs outDir) (joinP outDir ["manifest.json"])
    (.manifestFile { m with createdAt := now })

/-! ## Configuration model (`internal/config/config.go`) -/

/-- `config.DockerConfig`. -/
structure DockerConfig where
  enabled : Bool
  repository : String
  tags : List String
  push : Bool
  registries : List String
  dockerfile : String
deriving DecidableEq, Repr

/-- `config.VersionSet`. -/
structure VersionSet where
  versions : List String
deriving DecidableEq, Repr

/-- `config.RuntimeConfig`. -/
structure RuntimeConfig where
  dotnet : VersionSet
  node : VersionSet
deriving DecidableEq, Repr

/-- `config.MatrixEntry`. -/
structure MatrixEntry where
  path : String
  type : String
  frameworks : List String
  nodeVersions : List String
  packageManager : String
  buildScripts : List String
  docker : Option DockerConfig
deriving DecidableEq, Repr

/-- `config.Root` (the `defaults` section plays no role in the
orchestration logic modelled here and is omitted from use). -/
structure ConfigRoot where
  runtime : RuntimeConfig
  matrix : List MatrixEntry
deriving DecidableEq, Repr

/-! ## The planner (`internal/planner/planner.go`) -/

/-- The strict order `sort.Slice` in `Expand` sorts by: path, then
kind, then version, each ascending by Go byte-wise string comparison. -/
def taskLT (a b : PTask) : Prop :=
  strLtB a.path b.path = true ∨ (a.path = b.path ∧
    (strLtB a.kind b.kind = true ∨ (a.kind = b.kind ∧ strLtB a.version b.version = true)))

/-- The reflexive closure of `taskLT`: lexicographic (path, kind,
version) order. -/
def taskLE (a b : PTask) : Prop :=
  strLtB a.path b.path = true ∨ (a.path = b.path ∧
    (strLtB a.kind b.kind = true ∨ (a.kind = b.kind ∧ strLeB a.version b.version = true)))

instance : DecidableRel taskLT := by
  intro a b; unfold taskLT; infer_instance

instance : DecidableRel taskLE := by
  intro a b; unfold taskLE; infer_instance

/-- `planner.Plan`. -/
structure Plan where
  tasks : List PTask
deriving DecidableEq, Repr

/-- The tasks one matrix entry contributes, before sorting: filter by
the selection set (when non-empty), resolve the effective version list
(entry override or global fallback), skip empty-string versions and
unknown kinds. -/
def entryTasks (cfg : ConfigRoot) (selected : List String) (m : MatrixEntry) : List PTask :=
  if selected.length > 0 && !selected.contains m.path then []
  else if m.type = "dotnet" then
    let versions := if m.frameworks.length = 0 then cfg.runtime.dotnet.versions
      else m.frameworks
    (versions.filter (fun v => v ≠ "")).map
      (fun v => { path := m.path, kind := "dotnet", version := v })
  else if m.type = "node" then
    let versions := if m.nodeVersions.length = 0 then cfg.runtime.node.versions
      else m.nodeVersions
    (versions.filter (fun v => v ≠ "")).map
      (fun v => { path := m.path, kind := "node", version := v })
  else []

/-- `planner.Expand(cfg, selected)`: expand every matrix entry, then
sort by (path, kind, version).  Go's `sort.Slice` is an unstable sort
over the strict order; since tasks comparing equal under the
lexicographic order are identical records, the sorted result is the
unique sorted permutation, modelled by `insertionSort` over `taskLE`. -/
def expand (cfg : ConfigRoot) (selected : List String) : Plan :=
  { tasks := (cfg.matrix.foldl (fun acc m => acc ++ entryTasks cfg selected m) []).insertionSort
      taskLE }

/-! ## The image publisher (`internal/docker/docker.go`)

External `docker`/`aws` process invocations are recorded as an argv
trace; whether a recorded invocation succeeds is supplied by the
environment (`cmdOk`). -/

/-- The repository-name allow-list: alphanumerics, dot, underscore,
slash, dash (one or more). -/
def allowedRepoChar (c : Char) : Bool :=
  c.isAlphanum || c = '.' || c = '_' || c = '/' || c = '-'

/-- `validateRepositoryName`: the regex matches iff the string is
nonempty and every character is allow-listed. -/
def validateRepositoryName (repo : String) : Option String :=
  if repo.data.all allowedRepoChar && repo ≠ "" then none
  else some ("invalid repository name: " ++ repo)

/-- The tag allow-list: alphanumerics, dot, underscore, dash (one or
more). -/
def allowedTagChar (c : Char) : Bool :=
  c.isAlphanum || c = '.' || c = '_' || c = '-'

/-- `validateDockerTag`. -/
def validateDockerTag (tag : String) : Option String :=
  if tag.data.all allowedTagChar && tag ≠ "" &&
      !(tag.data.headD ' ' = '.') && !(tag.data.headD ' ' = '-') then none
  else some ("invalid Docker tag: " ++ tag)

/-- `pushToRegistries`: push every tag to every registry (default
registry `docker.io`, default tag `latest`), re-tagging first for
non-default registries; the first failing invocation aborts the rest. -/
def pushToRegistries (cmdOk : List String → Bool) (dcfg : DockerConfig) :
    Option String × List (List String) :=
  let registries := if dcfg.registries.length = 0 then ["docker.io"] else dcfg.registries
  let tags := if dcfg.tags.length = 0 then ["latest"] else dcfg.tags
  (registries.foldl
    (fun st registry =>
      match st with
      | (some e, trace) => (some e, trace)
      | (none, trace) =>
        tags.foldl
          (fun st2 tag =>
            match st2 with
            | (some e, tr) => (some e, tr)
            | (none, tr) =>
              let sourceTag := dcfg.repository ++ ":" ++ tag
              let fullTag := if registry = "docker.io" then sourceTag
                else registry ++ "/" ++ dcfg.repository ++ ":" ++ tag
              if registry ≠ "docker.io" then
                let tagCmd := ["docker", "tag", sourceTag, fullTag]
                if !cmdOk tagCmd then
                  (some ("failed to tag image for registry " ++ registry), tr ++ [tagCmd])
                else
                  let pushCmd := ["docker", "push", fullTag]
                  if !cmdOk pushCmd then
                    (some ("failed to push " ++ fullTag ++ " to " ++ registry),
                     tr ++ [tagCmd, pushCmd])
                  else (none, tr ++ [tagCmd, pushCmd])
              else
                let pushCmd := ["docker", "push", fullTag]
                if !cmdOk pushCmd then
                  (some ("failed to push " ++ fullTag ++ " to " ++ registry), tr ++ [pushCmd])
                else (none, tr ++ [pushCmd]))
          (none, trace))
    (none, []))

/-- `ImageBuilder.BuildAndPush`: nil/disabled spec → no-op; validate
the repository name; skip (successfully) when the Dockerfile is
absent; validate every tag; build once with the first tag and re-tag
the rest; push when configured.  The returned trace lists every
external process invocation, in order. -/
def buildAndPush (cmdOk : List String → Bool) (fs : FS) (projectPath : String)
    (dcfg : Option DockerConfig) (workspaceRoot : FPath) :
    Option String × List (List String) :=
  match dcfg with
  | none => (none, [])
  | some cfgd =>
    if !cfgd.enabled then (none, [])
    else
      match validateRepositoryName cfgd.repository with
      | some e => (some ("security check failed: " ++ e), [])
      | none =>
        let workDir := joinP workspaceRoot (splitComps projectPath)
        let dockerfilePath := if cfgd.dockerfile = "" then joinP workDir ["Dockerfile"]
          else joinP workDir (splitComps cfgd.dockerfile)
        if !statFile fs dockerfilePath then (none, [])
        else
          let tags := if cfgd.tags.length = 0 then ["latest"] else cfgd.tags
          match tags.findSome? validateDockerTag with
          | some e => (some ("security check failed: " ++ e), [])
          | none =>
            let firstTag := cfgd.repository ++ ":" ++ tags.headD "latest"
            let buildCmd := ["docker", "build", "-t", firstTag, "."]
            if !cmdOk buildCmd then
              (some ("docker build failed for " ++ projectPath), [buildCmd])
            else
              let tagSt := (tags.drop 1).foldl
                (fun st tag =>
                  match st with
                  | (some e, tr) => (some e, tr)
                  | (none, tr) =>
                    let fullTag := cfgd.repository ++ ":" ++ tag
                    let tagCmd := ["docker", "tag", firstTag, fullTag]
                    if !cmdOk tagCmd then
                      (some ("docker tag failed for " ++ fullTag), tr ++ [tagCmd])
                    else (none, tr ++ [tagCmd]))
                ((none : Option String), [buildCmd])
              match tagSt with
              | (some e, tr) => (some e, tr)
              | (none, tr) =>
                if cfgd.push then
                  match pushToRegistries cmdOk cfgd with
                  | (some e, tr2) => (some ("failed to push Docker images: " ++ e), tr ++ tr2)
                  | (none, tr2) => (none, tr ++ tr2)
                else (none, tr)

/-! ## The delegated runner (`internal/runner/runner.go`) -/

/-- Split a character list at every colon (`strings`-level split used
by the image-name check). -/
def splitColonAux : List Char → List Char → List (List Char)
  | [], acc => [acc.reverse]
  | c :: cs, acc =>
    if c = ':' then acc.reverse :: splitColonAux cs []
    else splitColonAux cs (c :: acc)

/-- The image-name allow-list of `validateDockerImage`: either
name chars only, or name chars, one colon, then tag chars (neither
character class contains a colon, so a match has at most one colon). -/
def imageNameOk (s : String) : Bool :=
  match (splitColonAux s.data []).map List.asString with
  | [name] => name ≠ "" && name.data.all allowedRepoChar
  | [name, tag] => name ≠ "" && name.data.all allowedRepoChar &&
      tag ≠ "" && tag.data.all allowedTagChar
  | _ => false

/-- `dockerSpec`: the toolchain image for a task. -/
def dockerSpecImage (task : PTask) : String :=
  if task.kind = "dotnet" then "mcr.microsoft.com/dotnet/sdk:" ++ task.version
  else if task.kind = "node" then "node:" ++ task.version
  else "alpine:latest"

/-- The environment of one delegated build: whether the external
`docker run` succeeds, the files/directories the build leaves in the
workspace (out of scope for the orchestrator, injected), the measured
time and clock value used for the manifest. -/
structure RunEnv where
  runSucceeds : Bool
  runWrites : List (FPath × FileData)
  runDirs : List FPath
  buildTimeMs : Int
  now : String

/-- `runner.RunTask`: validate the workspace root, require the task
path to exist, validate the toolchain image name, then delegate to
`docker run` (outcome and workspace effects from the environment). -/
def runTask (env : RunEnv) (workspaceRoot : FPath) (task : PTask) (fs : FS) :
    FS × Option String :=
  if !validPathB workspaceRoot then
    (fs, some "invalid workspace root: path traversal detected")
  else
    let workDir := joinP workspaceRoot (splitComps task.path)
    if !(dirExists fs workDir || statFile fs workDir) then
      (fs, some ("task path missing: " ++ task.path))
    else if !imageNameOk (dockerSpecImage task) then
      (fs, some "security check failed: invalid Docker image name")
    else if env.runSucceeds then
      (env.runWrites.foldl (fun a e => setFile a e.1 e.2)
        (env.runDirs.foldl addDir fs), none)
    else (fs, some "docker build failed")

/-! ## The task scheduler (`runBuild` in `main.go`) -/

/-- The CLI flags that steer the per-task pipeline. -/
structure Flags where
  noCache : Bool
  noDocker : Bool
  pushImages : Bool
deriving DecidableEq, Repr

/-- Which step of a task's pipeline failed (sent to `errCh`). -/
inductive FailStage where
  | keyGen
  | restore
  | build
deriving DecidableEq, Repr

/-- The observable outcome of one task's pipeline: the filesystem
afterwards, the error sent to `errCh` (if any) with its originating
stage, the reuse flag, whether the manifest was written, and the
warnings that were logged but deliberately NOT sent to `errCh`
(image-publish failure, cache-store failure). -/
structure TaskResult where
  fs : FS
  err : Option String
  stage : Option FailStage
  reused : Bool
  manifestWritten : Bool
  publishWarn : Option String
  storeWarn : Option String
deriving Repr

/-- The manifest record `runBuild` writes for a task. -/
def mkManifest (task : PTask) (key : String) (buildTimeMs : Int) (reused : Bool) : Manifest :=
  { project := task.path, kind := task.kind, toolchain := task.kind,
    version := task.version, hash := key, buildTimeMs := buildTimeMs,
    reused := reused, createdAt := "" }

/-- The per-task output directory
`filepath.Join("out", task.Path, task.Version)`. -/
def outDirOf (task : PTask) : FPath :=
  joinP (joinP ["out"] (splitComps task.path)) (splitComps task.version)

/-- One task's pipeline in `runBuild` (the goroutine body): derive the
cache key (a failure would fail the task — see `cacheKey`, it cannot);
on a cache hit restore (restore failure fails the task); otherwise run
the delegated build (failure fails the task), publish the image
(failure only logged), store to cache (failure only logged); finally
write the manifest. -/
def execTask (fl : Flags) (cfg : ConfigRoot) (env : RunEnv)
    (cmdOk : List String → Bool) (workspaceRoot : FPath) (task : PTask)
    (fs : FS) : TaskResult :=
  match cacheKey task workspaceRoot fs with
  | (_, some e) => ⟨fs, some e, some .keyGen, false, false, none, none⟩
  | (key, none) =>
    let outDir := outDirOf task
    if !fl.noCache && cacheExists key fs then
      match cacheRestore key outDir fs with
      | (fs1, some e) => ⟨fs1, some e, some .restore, false, false, none, none⟩
      | (fs1, none) =>
        let fs2 := writeManifest outDir (mkManifest task key env.buildTimeMs true) env.now fs1
        ⟨fs2, none, none, true, true, none, none⟩
    else
      match runTask env workspaceRoot task fs with
      | (fs1, some e) => ⟨fs1, some e, some .build, false, false, none, none⟩
      | (fs1, none) =>
        let entry := cfg.matrix.find? (fun me => me.path == task.path && me.type == task.kind)
        let dcfg := match entry with
          | some me =>
            match me.docker with
            | some d => some (if fl.pushImages then { d with push := true } else d)
            | none => none
          | none => none
        let publishWarn :=
          if !fl.noDocker then (buildAndPush cmdOk fs1 task.path dcfg workspaceRoot).1
          else none
        let storeRes := if !fl.noCache then cacheStore key outDir fs1 else (fs1, none)
        let fs3 := writeManifest outDir (mkManifest task key env.buildTimeMs false) env.now
          storeRes.1
        ⟨fs3, none, none, false, true, publishWarn, storeRes.2⟩

/-- The scheduler over a plan: every task runs to completion (no
cancellation on a sibling's failure).  Concurrent tasks write to
disjoint output directories; the modelled interleaving is sequential
composition in plan order. -/
def runTasks (fl : Flags) (cfg : ConfigRoot) (cmdOk : List String → Bool)
    (workspaceRoot : FPath) (jobs : List (PTask × RunEnv)) (fs : FS) :
    FS × List TaskResult :=
  jobs.foldl
    (fun st job =>
      let r := execTask fl cfg job.2 cmdOk workspaceRoot job.1 st.1
      (r.fs, st.2 ++ [r]))
    (fs, [])

/-- The aggregate result of `runBuild`: draining `errCh`, any task
error collapses into the single error `"one or more builds failed"`. -/
def aggregateErr (rs : List TaskResult) : Option String :=
  if rs.any (fun r => r.err.isSome) then some "one or more builds failed" else none

/-- `strings.Contains` on ASCII strings. -/
def containsSub (s sub : String) : Bool :=
  (List.range (s.data.length + 1)).any (fun i => sub.data.isPrefixOf (s.data.drop i))

/-- `fatal` in `main.go`: classify an error message into an exit code
by substring matching (2 = configuration, 1 = build failure,
3 = everything else). -/
def classifyExit (msg : String) : Nat :=
  if containsSub msg "load config" || containsSub msg "parse yaml" ||
      containsSub msg "config error" then 2
  else if containsSub msg "build failed" ||
      containsSub msg "one or more builds failed" then 1
  else 3

/-- The process exit code of a `build` run: 0 when `runBuild` returns
nil, otherwise `fatal`'s classification of the returned error. -/
def runExitCode (rs : List TaskResult) : Nat :=
  match aggregateErr rs with
  | none => 0
  | some m => classifyExit m

/-! ## Verified properties -/

/-- C10: cache-key derivation is total — `cache.Key` returns a nil
error for every task, workspace root and filesystem state (all its
internal failure modes are skipped, never surfaced), so the
scheduler's `cache key generation failed` branch is unreachable:
`execTask` never reports a `keyGen` failure stage. -/
theorem c10_cacheKey_total (t : PTask) (root : FPath) (fs : FS) (fl : Flags)
    (cfg : ConfigRoot) (env : RunEnv) (cmdOk : List String → Bool) :
    (cacheKey t root fs).2 = none ∧
    (execTask fl cfg env cmdOk root t fs).stage ≠ some FailStage.keyGen := by
  refine ⟨rfl, ?_⟩
  unfold execTask
  simp only [cacheKey]
  split
  · split <;> simp
  · split <;> simp

/-- C9: publish input validation — when the publish spec is enabled
and its repository string contains any character outside the
allow-list (alphanumerics, dot, dash, underscore, slash), the Image
Publisher returns a validation error and its external-process trace is
empty: no process is invoked, and the error is an ordinary returned
value (a publish failure), not a crash. -/
theorem c9_publish_validation (cmdOk : List String → Bool) (fs : FS)
    (projectPath : String) (dcfg : DockerConfig) (root : FPath) (c : Char)
    (hc : c ∈ dcfg.repository.data) (hbad : allowedRepoChar c = false)
    (hen : dcfg.enabled = true) :
    buildAndPush cmdOk fs projectPath (some dcfg) root =
      (some ("security check failed: " ++ ("invalid repository name: " ++ dcfg.repository)),
       []) := by
  have hall : dcfg.repository.data.all allowedRepoChar = false :=
    List.all_eq_false.mpr ⟨c, hc, by simp [hbad]⟩
  unfold buildAndPush validateRepositoryName
  simp [hen, hall]

/-- Witness for C9 at the spec's Scenario D input `"repo;rm -rf"`. -/
theorem c9_publish_validation_witness :
    buildAndPush (fun _ => true) ⟨[], []⟩ "app"
        (some { enabled := true, repository := "repo;rm -rf", tags := [],
                push := true, registries := [], dockerfile := "" }) [] =
      (some ("security check failed: " ++
        ("invalid repository name: " ++ "repo;rm -rf")), []) :=
  c9_publish_validation (fun _ => true) ⟨[], []⟩ "app" _ [] ';'
    (by decide) (by decide) (by decide)

/-! ## Order lemmas for the byte-wise string comparison -/

theorem lexLtN_cons_iff {a b : Nat} {as bs : List Nat} :
    lexLtN (a :: as) (b :: bs) = true ↔ a < b ∨ (a = b ∧ lexLtN as bs = true) := by
  simp only [lexLtN]
  split_ifs with h1 h2 <;> simp_all

theorem lexLtN_irrefl (l : List Nat) : lexLtN l l = false := by
  induction l with
  | nil => rfl
  | cons a as ih => simp [lexLtN, ih]

theorem lexLtN_trans : ∀ {a b c : List Nat},
    lexLtN a b = true → lexLtN b c = true → lexLtN a c = true := by
  intro a
  induction a with
  | nil =>
    intro b c hab hbc
    cases b with
    | nil => exact absurd hab (by simp [lexLtN])
    | cons y ys =>
      cases c with
      | nil => exact absurd hbc (by simp [lexLtN])
      | cons z zs => simp [lexLtN]
  | cons x xs ih =>
    intro b c hab hbc
    cases b with
    | nil => exact absurd hab (by simp [lexLtN])
    | cons y ys =>
      cases c with
      | nil => exact absurd hbc (by simp [lexLtN])
      | cons z zs =>
        rw [lexLtN_cons_iff] at hab hbc ⊢
        rcases hab with h1 | ⟨rfl, h1⟩
        · rcases hbc with h2 | ⟨rfl, h2⟩
          · exact Or.inl (h1.trans h2)
          · exact Or.inl h1
        · rcases hbc with h2 | ⟨rfl, h2⟩
          · exact Or.inl h2
          · exact Or.inr ⟨rfl, ih h1 h2⟩

theorem lexLtN_eq_of_not_lt : ∀ {a b : List Nat},
    lexLtN a b = false → lexLtN b a = false → a = b := by
  intro a
  induction a with
  | nil =>
    intro b hab hba
    cases b with
    | nil => rfl
    | cons y ys => exact absurd hab (by simp [lexLtN])
  | cons x xs ih =>
    intro b hab hba
    cases b with
    | nil => exact absurd hba (by simp [lexLtN])
    | cons y ys =>
      have hab' : ¬(x < y ∨ (x = y ∧ lexLtN xs ys = true)) := by
        rw [← lexLtN_cons_iff]; simp [hab]
      have hba' : ¬(y < x ∨ (y = x ∧ lexLtN ys xs = true)) := by
        rw [← lexLtN_cons_iff]; simp [hba]
      push_neg at hab' hba'
      have hxy : x = y := by omega
      subst hxy
      rw [ih (by simpa using hab'.2 rfl) (by simpa using hba'.2 rfl)]

theorem lexLtN_asymm {a b : List Nat} (h : lexLtN a b = true) : lexLtN b a = false := by
  cases hba : lexLtN b a
  · rfl
  · have h2 := lexLtN_trans h hba
    rw [lexLtN_irrefl] at h2
    exact absurd h2 Bool.false_ne_true

theorem strBytes_inj {a b : String} (h : strBytes a = strBytes b) : a = b := by
  have hinj : Function.Injective Char.toNat := by
    intro c d hcd
    exact Char.ext (UInt32.ext hcd)
  have hd : a.data = b.data := List.map_injective_iff.mpr hinj h
  cases a
  cases b
  exact congrArg String.mk hd

theorem strLtB_irrefl (s : String) : strLtB s s = false := lexLtN_irrefl _

theorem strLtB_trans {a b c : String} (h1 : strLtB a b = true)
    (h2 : strLtB b c = true) : strLtB a c = true := lexLtN_trans h1 h2

theorem strLtB_asymm {a b : String} (h : strLtB a b = true) : strLtB b a = false :=
  lexLtN_asymm h

theorem strLtB_eq_of_not_lt {a b : String} (hab : strLtB a b = false)
    (hba : strLtB b a = false) : a = b :=
  strBytes_inj (lexLtN_eq_of_not_lt hab hba)

theorem strLeB_iff_not_lt {a b : String} : strLeB a b = true ↔ strLtB b a = false := by
  unfold strLeB
  cases h : strLtB b a <;> simp

theorem strLeB_total (a b : String) : strLeB a b = true ∨ strLeB b a = true := by
  rw [strLeB_iff_not_lt, strLeB_iff_not_lt]
  cases h1 : strLtB b a
  · exact Or.inl rfl
  · exact Or.inr (strLtB_asymm h1)

theorem strLeB_trans {a b c : String} (h1 : strLeB a b = true)
    (h2 : strLeB b c = true) : strLeB a c = true := by
  rw [strLeB_iff_not_lt] at h1 h2 ⊢
  cases hca : strLtB c a
  · rfl
  · exfalso
    cases hbc : strLtB b c
    · have hbceq : b = c := strLtB_eq_of_not_lt hbc h2
      rw [hbceq] at h1
      exact absurd hca (by simp [h1])
    · exact absurd (strLtB_trans hbc hca) (by simp [h1])

theorem strLeB_antisymm {a b : String} (h1 : strLeB a b = true)
    (h2 : strLeB b a = true) : a = b := by
  rw [strLeB_iff_not_lt] at h1 h2
  exact strLtB_eq_of_not_lt h2 h1

theorem strLtB_le {a b : String} (h : strLtB a b = true) : strLeB a b = true := by
  rw [strLeB_iff_not_lt]
  exact strLtB_asymm h

theorem strLeB_refl (a : String) : strLeB a a = true := by
  rw [strLeB_iff_not_lt]
  exact strLtB_irrefl a

/-! ### Plan ordering (C3) -/

instance : IsTotal PTask taskLE :=
  ⟨fun a b => by
    unfold taskLE
    cases hp : strLtB a.path b.path
    · cases hp2 : strLtB b.path a.path
      · have hpe : a.path = b.path := strLtB_eq_of_not_lt hp hp2
        cases hk : strLtB a.kind b.kind
        · cases hk2 : strLtB b.kind a.kind
          · have hke : a.kind = b.kind := strLtB_eq_of_not_lt hk hk2
            rcases strLeB_total a.version b.version with hv | hv
            · exact Or.inl (Or.inr ⟨hpe, Or.inr ⟨hke, hv⟩⟩)
            · exact Or.inr (Or.inr ⟨hpe.symm, Or.inr ⟨hke.symm, hv⟩⟩)
          · exact Or.inr (Or.inr ⟨hpe.symm, Or.inl rfl⟩)
        · exact Or.inl (Or.inr ⟨hpe, Or.inl rfl⟩)
      · exact Or.inr (Or.inl rfl)
    · exact Or.inl (Or.inl rfl)⟩

instance : IsTrans PTask taskLE :=
  ⟨fun a b c hab hbc => by
    unfold taskLE at *
    rcases hab with h1 | ⟨e1, h1⟩
    · rcases hbc with h2 | ⟨e2, h2⟩
      · exact Or.inl (strLtB_trans h1 h2)
      · exact Or.inl (e2 ▸ h1)
    · rcases hbc with h2 | ⟨e2, h2⟩
      · exact Or.inl (e1 ▸ h2)
      · refine Or.inr ⟨e1.trans e2, ?_⟩
        rcases h1 with k1 | ⟨f1, k1⟩
        · rcases h2 with k2 | ⟨f2, k2⟩
          · exact Or.inl (strLtB_trans k1 k2)
          · exact Or.inl (f2 ▸ k1)
        · rcases h2 with k2 | ⟨f2, k2⟩
          · exact Or.inl (f1 ▸ k2)
          · exact Or.inr ⟨f1.trans f2, strLeB_trans k1 k2⟩⟩

instance : IsAntisymm PTask taskLE :=
  ⟨fun a b hab hba => by
    cases a with
    | mk p1 k1 v1 =>
      cases b with
      | mk p2 k2 v2 =>
        simp only [taskLE] at hab hba
        rcases hab with h1 | ⟨rfl, h1⟩
        · rcases hba with h2 | ⟨rfl, h2⟩
          · exact absurd (strLtB_trans h1 h2) (by simp [strLtB_irrefl])
          · exact absurd h1 (by simp [strLtB_irrefl])
        · rcases hba with h2 | ⟨-, h2⟩
          · exact absurd h2 (by simp [strLtB_irrefl])
          · rcases h1 with h1 | ⟨rfl, h1⟩
            · rcases h2 with h2 | ⟨e2, h2⟩
              · exact absurd (strLtB_trans h1 h2) (by simp [strLtB_irrefl])
              · exact absurd (e2 ▸ h1) (by simp [strLtB_irrefl])
            · rcases h2 with h2 | ⟨-, h2⟩
              · exact absurd h2 (by simp [strLtB_irrefl])
              · rw [strLeB_antisymm h1 h2]⟩

/-- C3: the task list returned by `Expand` is sorted lexicographically
by (path, kind, version) ascending, and the output is determined: any
sorted permutation of the expanded tasks (the outcome of any run of
the unstable `sort.Slice`) is this exact sequence, so repeated
invocations on the same inputs produce the identical ordered
sequence. -/
theorem c3_expand_sorted_deterministic (cfg : ConfigRoot) (selected : List String) :
    List.Sorted taskLE (expand cfg selected).tasks ∧
    ∀ l : List PTask, l.Perm (expand cfg selected).tasks → List.Sorted taskLE l →
      l = (expand cfg selected).tasks := by
  constructor
  · exact List.sorted_insertionSort taskLE _
  · intro l hperm hsort
    exact List.eq_of_perm_of_sorted hperm hsort (List.sorted_insertionSort taskLE _)

/-- Witness for C3 at the spec's Scenario B configuration. -/
theorem c3_expand_sorted_deterministic_witness :
    List.Sorted taskLE (expand
      { runtime := { dotnet := ⟨[]⟩, node := ⟨["18.20.2"]⟩ },
        matrix := [
          { path := "api", type := "dotnet", frameworks := ["6.0.415", "8.0.100"],
            nodeVersions := [], packageManager := "", buildScripts := [], docker := none },
          { path := "web", type := "node", frameworks := [], nodeVersions := [],
            packageManager := "", buildScripts := [], docker := none }] } []).tasks ∧
    [⟨"api", "dotnet", "6.0.415"⟩, ⟨"api", "dotnet", "8.0.100"⟩,
     (⟨"web", "node", "18.20.2"⟩ : PTask)] = (expand
      { runtime := { dotnet := ⟨[]⟩, node := ⟨["18.20.2"]⟩ },
        matrix := [
          { path := "api", type := "dotnet", frameworks := ["6.0.415", "8.0.100"],
            nodeVersions := [], packageManager := "", buildScripts := [], docker := none },
          { path := "web", type := "node", frameworks := [], nodeVersions := [],
            packageManager := "", buildScripts := [], docker := none }] } []).tasks :=
  ⟨(c3_expand_sorted_deterministic _ []).1,
   (c3_expand_sorted_deterministic _ []).2 _ (by decide) (by decide)⟩

/-! ### Cache-key determinism (C2) and key collisions (C6) -/

theorem lockBytes_congr {fs1 fs2 : FS} :
    ∀ {l : List FPath}, (∀ f ∈ l, readFile fs1 f = readFile fs2 f) →
      lockBytes fs1 l = lockBytes fs2 l := by
  have aux : ∀ (l : List FPath) (acc : List Nat),
      (∀ f ∈ l, readFile fs1 f = readFile fs2 f) →
      l.foldl (lockStep fs1) acc = l.foldl (lockStep fs2) acc := by
    intro l
    induction l with
    | nil => intro acc _; rfl
    | cons f fl ih =>
      intro acc h
      simp only [List.foldl_cons]
      rw [show lockStep fs1 acc f = lockStep fs2 acc f from by
        unfold lockStep
        rw [h f (List.mem_cons_self f fl)]]
      exact ih _ (fun g hg => h g (List.mem_cons_of_mem f hg))
  intro l h
  exact aux l [] h

/-- C2: cache-key determinism — `cache.Key` depends on the filesystem
only through the set of lock/definition files it finds and their
contents.  For any two filesystem states in which `findLockFiles`
returns the same files and each of those files reads the same (in
particular, for two calls with unchanged filesystem state), the
derived key is identical. -/
theorem c2_cacheKey_deterministic (t : PTask) (root : FPath) (fs1 fs2 : FS)
    (hfind : findLockFiles fs1 (joinP root (splitComps t.path)) t.kind
           = findLockFiles fs2 (joinP root (splitComps t.path)) t.kind)
    (hread : ∀ f ∈ findLockFiles fs1 (joinP root (splitComps t.path)) t.kind,
        readFile fs1 f = readFile fs2 f) :
    cacheKey t root fs1 = cacheKey t root fs2 := by
  have hki : keyInput t root fs1 = keyInput t root fs2 := by
    unfold keyInput
    dsimp only
    rw [← hfind]
    congr 1
    apply lockBytes_congr
    intro f hf
    exact hread f ((List.perm_insertionSort _ _).subset hf)
  unfold cacheKey
  rw [hki]

/-- Witness for C2: two states that differ in an unrelated file (and
in recorded directories) but agree on the project's lock files derive
the identical key. -/
theorem c2_cacheKey_deterministic_witness :
    cacheKey ⟨"app", "node", "18.20.2"⟩ ["ws"]
        ⟨[(["ws", "app", "package.json"], .bytes [1, 2])], [["ws", "app"]]⟩ =
      cacheKey ⟨"app", "node", "18.20.2"⟩ ["ws"]
        ⟨[(["other", "x"], .bytes [9]), (["ws", "app", "package.json"], .bytes [1, 2])], []⟩ :=
  c2_cacheKey_deterministic ⟨"app", "node", "18.20.2"⟩ ["ws"] _ _
    (by decide) (by decide)

/-- C6 counterexample: key derivation is NOT injective over task
identity.  The hash input concatenates kind, version and path with no
separator, so the distinct tasks (path "0app", node, version "18.2")
and (path "app", node, version "18.20") — with no lock files present —
feed the identical byte stream "node18.20app" to the hash and derive
the identical key. -/
theorem c6_key_collision_counterexample :
    cacheKey ⟨"0app", "node", "18.2"⟩ [] ⟨[], []⟩ =
      cacheKey ⟨"app", "node", "18.20"⟩ [] ⟨[], []⟩ ∧
    (⟨"0app", "node", "18.2"⟩ : PTask) ≠ ⟨"app", "node", "18.20"⟩ := by
  constructor
  · have h : keyInput ⟨"0app", "node", "18.2"⟩ [] ⟨[], []⟩ =
        keyInput ⟨"app", "node", "18.20"⟩ [] ⟨[], []⟩ := by decide
    unfold cacheKey
    rw [h]
  · decide

/-- C6 amended: the derived key is a function of the hash-input byte
stream alone — whenever two tasks (even distinct ones) produce the
same concatenated stream of kind, version, path and lock-file
contents, they derive the identical cache key; injectivity over task
identity therefore does not hold. -/
theorem c6_key_congruence_amended (t1 t2 : PTask) (root : FPath) (fs : FS)
    (h : keyInput t1 root fs = keyInput t2 root fs) :
    cacheKey t1 root fs = cacheKey t2 root fs := by
  unfold cacheKey
  rw [h]

/-- Witness for the amended C6 at the colliding pair of tasks. -/
theorem c6_key_congruence_amended_witness :
    cacheKey ⟨"0app", "node", "18.2"⟩ ["w"] ⟨[], [["w"]]⟩ =
      cacheKey ⟨"app", "node", "18.20"⟩ ["w"] ⟨[], [["w"]]⟩ :=
  c6_key_congruence_amended _ _ ["w"] _ (by decide)

/-! ### Exit-code classification (C8) -/

/-- A task whose path escapes the workspace: its output directory
`out/../../pwn/1.0` cleans to `../pwn/1.0`, which still contains `..`,
so the copy step of a cache restore fails its path validation.  This
realises a cache-I/O fault surfaced through a task. -/
def pwnTask : PTask := ⟨"../../pwn", "node", "1.0"⟩

/-- The cache key the scheduler derives for `pwnTask` over a
filesystem with no lock files. -/
def pwnKey : String := (cacheKey pwnTask [] ⟨[], []⟩).1

/-- A filesystem already holding a cached manifest under `pwnKey`, so
the scheduler takes the cache-hit path for `pwnTask`. -/
def pwnFS : FS := ⟨[(joinP (cacheDirOf pwnKey) ["manifest.json"], .bytes [])], []⟩

/-- A build environment whose delegated build succeeds without writing
anything. -/
def idleEnv : RunEnv :=
  { runSucceeds := true, runWrites := [], runDirs := [], buildTimeMs := 0, now := "t" }

/-- An empty configuration (no matrix entries). -/
def emptyCfg : ConfigRoot := ⟨⟨⟨[]⟩, ⟨[]⟩⟩, []⟩

/-- The scheduler's outcome for `pwnTask` over `pwnFS`: a cache hit
whose restore fails. -/
def pwnResult : TaskResult :=
  execTask ⟨false, true, false⟩ emptyCfg idleEnv (fun _ => true) [] pwnTask pwnFS

set_option maxRecDepth 1000000 in
/-- C8 counterexample: a run whose only failure is a cache-restore
fault exits with code 1, not 3 — `runBuild` collapses every task
failure into the aggregate error `"one or more builds failed"`, which
`fatal` classifies as a build failure. -/
theorem c8_restore_failure_exit_counterexample :
    pwnResult.stage = some FailStage.restore ∧
    pwnResult.err.isSome = true ∧
    runExitCode [pwnResult] = 1 := by decide

/-- C8 amended: any run in which at least one task failed — whatever
the failing step was, a delegated build or a cache restore — exits
with code 1 (BuildFailure): the scheduler returns the single aggregate
error `"one or more builds failed"` and `fatal` maps it to 1.  Exit 3
is reserved for errors outside the build pipeline (`inspect` on a
missing manifest, an unknown command). -/
theorem c8_exit_code_amended (rs : List TaskResult)
    (h : rs.any (fun r => r.err.isSome) = true) :
    aggregateErr rs = some "one or more builds failed" ∧ runExitCode rs = 1 := by
  have ha : aggregateErr rs = some "one or more builds failed" := by
    unfold aggregateErr
    rw [h]
    rfl
  refine ⟨ha, ?_⟩
  unfold runExitCode
  rw [ha]
  decide

/-- Witness for the amended C8 at a one-task run with a failed task. -/
theorem c8_exit_code_amended_witness :
    aggregateErr [⟨⟨[], []⟩, some "cache key not found: k", some FailStage.restore,
        false, false, none, none⟩] = some "one or more builds failed" ∧
    runExitCode [⟨⟨[], []⟩, some "cache key not found: k", some FailStage.restore,
        false, false, none, none⟩] = 1 :=
  c8_exit_code_amended _ (by decide)

/-! ### Failure-severity policy (C4) -/

/-- C4: per-task failure severity in the scheduler.  (a) On the
cache-miss path, when the delegated build succeeds the task never
fails and always writes its manifest and contributes no error to the
aggregate — regardless of the outcomes of the image publish and the
cache store (those are recorded only as warnings).  (b) On the
cache-miss path a delegated-build failure fails the task and the
aggregate.  (c) On the cache-hit path a restore failure fails the task
and the aggregate. -/
theorem c4_failure_severity_policy (fl : Flags) (cfg : ConfigRoot) (env : RunEnv)
    (cmdOk : List String → Bool) (root : FPath) (t : PTask) (fs : FS) :
    ((!fl.noCache && cacheExists (cacheKey t root fs).1 fs) = false →
      (runTask env root t fs).2 = none →
      (execTask fl cfg env cmdOk root t fs).err = none ∧
      (execTask fl cfg env cmdOk root t fs).manifestWritten = true ∧
      aggregateErr [execTask fl cfg env cmdOk root t fs] = none) ∧
    (∀ e, (!fl.noCache && cacheExists (cacheKey t root fs).1 fs) = false →
      (runTask env root t fs).2 = some e →
      (execTask fl cfg env cmdOk root t fs).err = some e ∧
      aggregateErr [execTask fl cfg env cmdOk root t fs] =
        some "one or more builds failed") ∧
    (∀ e, (!fl.noCache && cacheExists (cacheKey t root fs).1 fs) = true →
      (cacheRestore (cacheKey t root fs).1 (outDirOf t) fs).2 = some e →
      (execTask fl cfg env cmdOk root t fs).err = some e ∧
      aggregateErr [execTask fl cfg env cmdOk root t fs] =
        some "one or more builds failed") := by
  refine ⟨?_, ?_, ?_⟩
  · intro hmiss hrun
    unfold execTask
    simp only [cacheKey] at hmiss ⊢
    rw [hmiss]
    cases hrt : runTask env root t fs with
    | mk fs1 e1 =>
      rw [hrt] at hrun
      simp only at hrun
      subst hrun
      simp [aggregateErr]
  · intro e hmiss hrun
    unfold execTask
    simp only [cacheKey] at hmiss ⊢
    rw [hmiss]
    cases hrt : runTask env root t fs with
    | mk fs1 e1 =>
      rw [hrt] at hrun
      simp only at hrun
      subst hrun
      simp [aggregateErr]
  · intro e hhit hres
    unfold execTask
    simp only [cacheKey] at hhit hres ⊢
    rw [hhit]
    cases hrs : cacheRestore (⟨(hexOfBytes (sha256 (keyInput t root fs))).data.take 12⟩ : String)
        (outDirOf t) fs with
    | mk fs1 e1 =>
      rw [hrs] at hres
      simp only at hres
      subst hres
      simp [aggregateErr]

/-- A workspace with one node project carrying a `package.json` and a
`Dockerfile` (no cache entries, no `out` tree). -/
def wsFS : FS :=
  ⟨[(["app", "package.json"], .bytes [1]), (["app", "Dockerfile"], .bytes [2])],
   [["app"]]⟩

/-- A matrix configuration for `wsFS` with an enabled publish spec. -/
def wsCfg : ConfigRoot :=
  ⟨⟨⟨[]⟩, ⟨["18"]⟩⟩,
   [{ path := "app", type := "node", frameworks := [], nodeVersions := [],
      packageManager := "", buildScripts := [],
      docker := some { enabled := true, repository := "org/app", tags := [],
                       push := false, registries := [], dockerfile := "" } }]⟩

/-- The node task of `wsCfg`. -/
def wsTask : PTask := ⟨"app", "node", "18"⟩

set_option maxRecDepth 1000000 in
/-- Witness for C4.  Part (a) at a run where the image publish fails
(every external command fails) and the cache store fails (the output
directory does not exist) — the task still succeeds, writes its
manifest, contributes nothing to the aggregate, and both warnings are
recorded.  Part (b) at a failed delegated build.  Part (c) at the
failing cache restore of `pwnResult`. -/
theorem c4_failure_severity_policy_witness :
    ((execTask ⟨false, false, false⟩ wsCfg idleEnv (fun _ => false) [] wsTask wsFS).err
        = none ∧
      (execTask ⟨false, false, false⟩ wsCfg idleEnv (fun _ => false) [] wsTask
          wsFS).manifestWritten = true ∧
      aggregateErr [execTask ⟨false, false, false⟩ wsCfg idleEnv (fun _ => false) []
          wsTask wsFS] = none) ∧
    ((execTask ⟨false, false, false⟩ wsCfg idleEnv (fun _ => false) [] wsTask
        wsFS).storeWarn.isSome = true ∧
      (execTask ⟨false, false, false⟩ wsCfg idleEnv (fun _ => false) [] wsTask
        wsFS).publishWarn.isSome = true) ∧
    ((execTask ⟨false, false, false⟩ wsCfg
        { idleEnv with runSucceeds := false } (fun _ => false) [] wsTask wsFS).err
        = some "docker build failed" ∧
      aggregateErr [execTask ⟨false, false, false⟩ wsCfg
        { idleEnv with runSucceeds := false } (fun _ => false) [] wsTask wsFS] =
        some "one or more builds failed") ∧
    (pwnResult.err = some "invalid destination path: path traversal detected" ∧
      aggregateErr [pwnResult] = some "one or more builds failed") :=
  ⟨(c4_failure_severity_policy ⟨false, false, false⟩ wsCfg idleEnv (fun _ => false)
      [] wsTask wsFS).1 (by decide) (by decide),
   (by decide),
   (c4_failure_severity_policy ⟨false, false, false⟩ wsCfg
      { idleEnv with runSucceeds := false } (fun _ => false) [] wsTask wsFS).2.1
     "docker build failed" (by decide) (by decide),
   (c4_failure_severity_policy ⟨false, true, false⟩ emptyCfg idleEnv (fun _ => true)
      [] pwnTask pwnFS).2.2
     "invalid destination path: path traversal detected" (by decide) (by decide)⟩

/-! ### End-to-end cache reuse (C1) -/

/-- A fresh workspace: one node project with a `package.json`, no
`out` tree, no cache. -/
def c1fs : FS := ⟨[(["app", "package.json"], .bytes [1, 2, 3])], [["app"]]⟩

/-- A delegated build that succeeds and writes its artifacts into the
project directory (as the containerised toolchain build does); nothing
creates the scheduler's `out/...` directory. -/
def c1env : RunEnv :=
  { runSucceeds := true, runWrites := [(["app", "dist", "main.js"], .bytes [9])],
    runDirs := [["app", "dist"]], buildTimeMs := 5, now := "t1" }

/-- The matrix configuration for the fresh workspace (no publish). -/
def c1cfg : ConfigRoot :=
  ⟨⟨⟨[]⟩, ⟨["18.20.2"]⟩⟩,
   [{ path := "app", type := "node", frameworks := [], nodeVersions := [],
      packageManager := "", buildScripts := [], docker := none }]⟩

/-- The single task of `c1cfg`. -/
def c1task : PTask := ⟨"app", "node", "18.20.2"⟩

set_option maxRecDepth 1000000 in
/-- C1 (failing on the code): with caching enabled on a fresh
workspace, the first invocation succeeds in full (its cache store
fails and is only warned about, because `runBuild` calls `cache.Store`
on `out/app/18.20.2` before `WriteManifest` has created that
directory), and the second invocation with identical configuration and
unchanged lock files does NOT take the cache-hit path: its manifest
records `reused = false`.  Reuse first happens on the third
invocation, after the second run's store found the manifest the first
run left in `out/`. -/
theorem c1_second_run_not_reused :
    (execTask ⟨false, true, false⟩ c1cfg c1env (fun _ => true) [] c1task c1fs).err
      = none ∧
    (execTask ⟨false, true, false⟩ c1cfg c1env (fun _ => true) [] c1task
        c1fs).manifestWritten = true ∧
    (execTask ⟨false, true, false⟩ c1cfg c1env (fun _ => true) [] c1task
        c1fs).storeWarn.isSome = true ∧
    (execTask ⟨false, true, false⟩ c1cfg c1env (fun _ => true) [] c1task c1fs).reused
      = false ∧
    (execTask ⟨false, true, false⟩ c1cfg c1env (fun _ => true) [] c1task
        (execTask ⟨false, true, false⟩ c1cfg c1env (fun _ => true) [] c1task
          c1fs).fs).err = none ∧
    (execTask ⟨false, true, false⟩ c1cfg c1env (fun _ => true) [] c1task
        (execTask ⟨false, true, false⟩ c1cfg c1env (fun _ => true) [] c1task
          c1fs).fs).reused = false ∧
    (match readFile (execTask ⟨false, true, false⟩ c1cfg c1env (fun _ => true) []
          c1task (execTask ⟨false, true, false⟩ c1cfg c1env (fun _ => true) []
            c1task c1fs).fs).fs
        (joinP (outDirOf c1task) ["manifest.json"]) with
      | some (FileData.manifestFile m) => m.reused
      | _ => true) = false ∧
    (execTask ⟨false, true, false⟩ c1cfg c1env (fun _ => true) [] c1task
        (execTask ⟨false, true, false⟩ c1cfg c1env (fun _ => true) [] c1task
          (execTask ⟨false, true, false⟩ c1cfg c1env (fun _ => true) [] c1task
            c1fs).fs).fs).reused = true := by decide

/-! ### Filesystem lemmas for the cache round-trip (C5, C7) -/

theorem readFile_congr_files {g1 g2 : FS} (h : g1.files = g2.files) (q : FPath) :
    readFile g1 q = readFile g2 q := by
  unfold readFile
  rw [h]

theorem readFile_addDir (fs : FS) (d p : FPath) :
    readFile (addDir fs d) p = readFile fs p := rfl

theorem not_mem_keys_of_readFile_eq_none {fs : FS} {p : FPath}
    (h : readFile fs p = none) : ∀ e ∈ fs.files, e.1 ≠ p := by
  intro e he hek
  unfold readFile at h
  rw [Option.map_eq_none'] at h
  rw [List.find?_eq_none] at h
  exact h e he (by simp [hek])

theorem readFile_eq_none_of_not_mem {fs : FS} {p : FPath}
    (h : ∀ e ∈ fs.files, e.1 ≠ p) : readFile fs p = none := by
  unfold readFile
  rw [Option.map_eq_none', List.find?_eq_none]
  intro e he
  simp [h e he]

theorem mem_of_readFile_eq_some {fs : FS} {p : FPath} {d : FileData}
    (h : readFile fs p = some d) : (p, d) ∈ fs.files := by
  unfold readFile at h
  rw [Option.map_eq_some'] at h
  obtain ⟨e, he, hed⟩ := h
  have hkey : e.1 = p := by
    have := List.find?_some he
    simpa using this
  have hmem := List.mem_of_find?_eq_some he
  have : e = (p, d) := by
    cases e
    simp_all
  rw [← this]
  exact hmem

theorem eq_of_mem_keys_nodup {l : List (FPath × FileData)}
    (h : (l.map Prod.fst).Nodup) :
    ∀ {e e' : FPath × FileData}, e ∈ l → e' ∈ l → e.1 = e'.1 → e = e' := by
  induction l with
  | nil => intro e e' he; simp at he
  | cons f tl ih =>
    intro e e' he he' hk
    rw [List.map_cons, List.nodup_cons] at h
    rcases List.mem_cons.mp he with he0 | he
    · rcases List.mem_cons.mp he' with he0' | he'
      · rw [he0, he0']
      · exfalso
        apply h.1
        rw [← he0, hk]
        exact List.mem_map_of_mem Prod.fst he'
    · rcases List.mem_cons.mp he' with he0' | he'
      · exfalso
        apply h.1
        rw [← he0', ← hk]
        exact List.mem_map_of_mem Prod.fst he
      · exact ih h.2 he he' hk

theorem readFile_eq_some_of_mem {fs : FS} (hnd : (fs.files.map Prod.fst).Nodup)
    {e : FPath × FileData} (he : e ∈ fs.files) : readFile fs e.1 = some e.2 := by
  unfold readFile
  cases hf : fs.files.find? (fun x => x.1 == e.1) with
  | none =>
    rw [List.find?_eq_none] at hf
    exact absurd (by simp) (hf e he)
  | some x =>
    have hx1 : x.1 = e.1 := by simpa using List.find?_some hf
    have hxe : x = e := eq_of_mem_keys_nodup hnd (List.mem_of_find?_eq_some hf) he hx1
    simp [hxe]

theorem find?_filter_key (l : List (FPath × FileData)) (p q : FPath) (h : q ≠ p) :
    (l.filter (fun e => !(e.1 == p))).find? (fun e => e.1 == q)
      = l.find? (fun e => e.1 == q) := by
  induction l with
  | nil => rfl
  | cons e tl ih =>
    by_cases hq : e.1 = q
    · have hkeep : (!(e.1 == p)) = true := by simp [hq, h]
      have hqb : (e.1 == q) = true := by simp [hq]
      simp [List.filter_cons, List.find?_cons, hkeep, hqb]
    · have hqb : (e.1 == q) = false := by simp [hq]
      by_cases hp : e.1 = p
      · have hdrop : (!(e.1 == p)) = false := by simp [hp]
        simp [List.filter_cons, List.find?_cons, hdrop, hqb, ih]
      · have hkeep : (!(e.1 == p)) = true := by simp [hp]
        simp [List.filter_cons, List.find?_cons, hkeep, hqb, ih]

theorem readFile_setFile_self (fs : FS) (p : FPath) (d : FileData) :
    readFile (setFile fs p d) p = some d := by
  unfold readFile setFile
  simp [List.find?_cons]

theorem readFile_setFile_ne (fs : FS) {p q : FPath} (h : q ≠ p) (d : FileData) :
    readFile (setFile fs p d) q = readFile fs q := by
  unfold readFile setFile
  have hpb : ((p, d).1 == q) = false := by
    simp only [beq_eq_false_iff_ne, ne_eq]
    exact fun hpq => h hpq.symm
  simp only [List.find?_cons, hpb]
  rw [find?_filter_key fs.files p q h]

theorem setFile_files_of_none {fs : FS} {p : FPath} (h : readFile fs p = none)
    (d : FileData) : (setFile fs p d).files = (p, d) :: fs.files := by
  unfold setFile
  have : fs.files.filter (fun e => !(e.1 == p)) = fs.files :=
    List.filter_eq_self.mpr (fun e he => by
      simp [not_mem_keys_of_readFile_eq_none h e he])
  rw [this]

/-! ### Clean-path lemmas -/

theorem compOk_facts {c : String} (h : compOk c = true) :
    c ≠ "" ∧ c ≠ "." ∧ c ≠ ".." ∧ hasDotDotPair c = false := by
  unfold compOk at h
  simp only [Bool.and_eq_true, decide_eq_true_eq, Bool.not_eq_true'] at h
  refine ⟨h.1.1, h.1.2, ?_, h.2⟩
  intro hdd
  rw [hdd] at h
  exact absurd h.2 (by decide)

theorem cleanStep_plain (acc : List String) {c : String} (h : compOk c = true) :
    cleanStep acc c = acc ++ [c] := by
  obtain ⟨h1, h2, h3, _⟩ := compOk_facts h
  unfold cleanStep
  rw [if_neg (by simp [h1, h2]), if_neg h3]

theorem cleanComps_eq_self {p : FPath} (h : compsOk p = true) : cleanComps p = p := by
  have aux : ∀ (l : List String) (acc : List String), compsOk l = true →
      l.foldl cleanStep acc = acc ++ l := by
    intro l
    induction l with
    | nil => intro acc _; simp
    | cons c cl ih =>
      intro acc hok
      rw [compsOk, List.all_cons, Bool.and_eq_true] at hok
      rw [List.foldl_cons, cleanStep_plain acc hok.1, ih (acc ++ [c]) hok.2]
      simp
  have := aux p [] h
  simpa [cleanComps] using this

theorem compsOk_append_iff {p q : FPath} :
    compsOk (p ++ q) = true ↔ compsOk p = true ∧ compsOk q = true := by
  unfold compsOk
  rw [List.all_append, Bool.and_eq_true]

theorem compsOk_drop {p : FPath} (h : compsOk p = true) (n : Nat) :
    compsOk (p.drop n) = true := by
  unfold compsOk at *
  rw [List.all_eq_true] at *
  intro c hc
  exact h c (List.mem_of_mem_drop hc)

theorem joinP_eq_append {a b : FPath} (ha : compsOk a = true) (hb : compsOk b = true) :
    joinP a b = a ++ b := by
  unfold joinP
  exact cleanComps_eq_self (compsOk_append_iff.mpr ⟨ha, hb⟩)

theorem validPathB_of_compsOk {p : FPath} (h : compsOk p = true) :
    validPathB p = true := by
  unfold validPathB
  rw [cleanComps_eq_self h]
  simp only [Bool.not_eq_true']
  rw [List.any_eq_false]
  intro c hc
  unfold compsOk at h
  rw [List.all_eq_true] at h
  simp [(compOk_facts (h c hc)).2.2.2]

theorem prefix_drop_append {src p : FPath} (h : src <+: p) :
    src ++ p.drop src.length = p := by
  obtain ⟨t, rfl⟩ := h
  rw [List.drop_left]

theorem append_ne_of_unrelated {p q : FPath} (h1 : ¬ p <+: q) (h2 : ¬ q <+: p)
    (r s : FPath) : p ++ r ≠ q ++ s := by
  intro he
  rcases le_total p.length q.length with hl | hl
  · exact h1 (List.prefix_of_prefix_length_le (he ▸ List.prefix_append p r)
      (List.prefix_append q s) hl)
  · exact h2 (List.prefix_of_prefix_length_le (he ▸ List.prefix_append q s)
      (List.prefix_append p r) hl)

theorem mem_filesUnder {fs : FS} {src : FPath} {e : FPath × FileData} :
    e ∈ filesUnder fs src ↔ e ∈ fs.files ∧ src <+: e.1 ∧ src.length ≠ e.1.length := by
  unfold filesUnder
  rw [List.mem_filter, Bool.and_eq_true, List.isPrefixOf_iff_prefix, bne_iff_ne]

/-! ### Characterisation of the copy fold -/

/-- The destination path a walked entry is copied to. -/
def destPathOf (src dest : FPath) (e : FPath × FileData) : FPath :=
  joinP dest (e.1.drop src.length)

theorem copyOne_ok {src dest : FPath} {fs : FS} {e : FPath × FileData}
    (h1 : validPathB e.1 = true)
    (h2 : validPathB (destPathOf src dest e) = true) :
    copyOne src dest (fs, none) e =
      (setFile (addDir fs (destPathOf src dest e).dropLast)
        (destPathOf src dest e) e.2, none) := by
  unfold copyOne destPathOf at *
  simp [h1, h2]

theorem copyFold_lookup (src dest : FPath) :
    ∀ (l : List (FPath × FileData)) (g : FS),
      (∀ e ∈ l, validPathB e.1 = true) →
      (∀ e ∈ l, validPathB (destPathOf src dest e) = true) →
      (l.map (destPathOf src dest)).Nodup →
      (l.foldl (copyOne src dest) (g, none)).2 = none ∧
      ∀ q, readFile (l.foldl (copyOne src dest) (g, none)).1 q =
        (match l.find? (fun e => destPathOf src dest e == q) with
         | some e => some e.2
         | none => readFile g q) := by
  intro l
  induction l with
  | nil =>
    intro g _ _ _
    exact ⟨rfl, fun q => by simp⟩
  | cons e tl ih =>
    intro g hv1 hv2 hnd
    have hv1e := hv1 e (List.mem_cons_self e tl)
    have hv2e := hv2 e (List.mem_cons_self e tl)
    rw [List.map_cons, List.nodup_cons] at hnd
    have hstep : (e :: tl).foldl (copyOne src dest) (g, none)
        = tl.foldl (copyOne src dest)
          (setFile (addDir g (destPathOf src dest e).dropLast)
            (destPathOf src dest e) e.2, none) := by
      rw [List.foldl_cons, copyOne_ok hv1e hv2e]
    set g' := setFile (addDir g (destPathOf src dest e).dropLast)
      (destPathOf src dest e) e.2 with hg'
    obtain ⟨ihok, ihlook⟩ := ih g'
      (fun x hx => hv1 x (List.mem_cons_of_mem e hx))
      (fun x hx => hv2 x (List.mem_cons_of_mem e hx)) hnd.2
    refine ⟨by rw [hstep]; exact ihok, ?_⟩
    intro q
    rw [hstep, ihlook q]
    by_cases hq : destPathOf src dest e = q
    · have hfindtl : tl.find? (fun x => destPathOf src dest x == q) = none := by
        rw [List.find?_eq_none]
        intro x hx
        simp only [beq_iff_eq]
        intro hxq
        exact hnd.1 (hxq.trans hq.symm ▸ List.mem_map_of_mem (destPathOf src dest) hx)
      have hheadb : (destPathOf src dest e == q) = true := by simp [hq]
      rw [hfindtl]
      simp only [List.find?_cons, hheadb]
      rw [hg', ← hq, readFile_setFile_self]
    · have hheadb : (destPathOf src dest e == q) = false := by simp [hq]
      simp only [List.find?_cons, hheadb]
      cases hfindtl : tl.find? (fun x => destPathOf src dest x == q) with
      | some x => rfl
      | none =>
        rw [hg', readFile_setFile_ne _ (fun hqe => hq hqe.symm), readFile_addDir]

theorem copyFold_files (src dest : FPath) :
    ∀ (l : List (FPath × FileData)) (g : FS),
      (∀ e ∈ l, validPathB e.1 = true) →
      (∀ e ∈ l, validPathB (destPathOf src dest e) = true) →
      (l.map (destPathOf src dest)).Nodup →
      (∀ e ∈ l, readFile g (destPathOf src dest e) = none) →
      ((l.foldl (copyOne src dest) (g, none)).1).files =
        (l.map (fun e => (destPathOf src dest e, e.2))).reverse ++ g.files := by
  intro l
  induction l with
  | nil => intro g _ _ _ _; simp
  | cons e tl ih =>
    intro g hv1 hv2 hnd hfresh
    have hv1e := hv1 e (List.mem_cons_self e tl)
    have hv2e := hv2 e (List.mem_cons_self e tl)
    rw [List.map_cons, List.nodup_cons] at hnd
    rw [List.foldl_cons, copyOne_ok hv1e hv2e]
    set g' := setFile (addDir g (destPathOf src dest e).dropLast)
      (destPathOf src dest e) e.2 with hg'
    have hg'files : g'.files = (destPathOf src dest e, e.2) :: g.files := by
      rw [hg']
      rw [setFile_files_of_none
        (by rw [readFile_addDir]; exact hfresh e (List.mem_cons_self e tl))]
      rfl
    have hfresh' : ∀ x ∈ tl, readFile g' (destPathOf src dest x) = none := by
      intro x hx
      have hne : destPathOf src dest x ≠ destPathOf src dest e := by
        intro hxe
        exact hnd.1 (hxe ▸ List.mem_map_of_mem (destPathOf src dest) hx)
      rw [hg', readFile_setFile_ne _ hne, readFile_addDir]
      exact hfresh x (List.mem_cons_of_mem e hx)
    rw [ih g' (fun x hx => hv1 x (List.mem_cons_of_mem e hx))
      (fun x hx => hv2 x (List.mem_cons_of_mem e hx)) hnd.2 hfresh', hg'files]
    simp

/-- The directory-recreation prefix of `copyDir` does not change the
file entries. -/
theorem copyDirPrep_files (g : FS) (ds : List FPath) (f : FPath → FPath) :
    ((ds.foldl (fun a d => addDir a (f d)) g)).files = g.files := by
  induction ds generalizing g with
  | nil => rfl
  | cons d dl ih => rw [List.foldl_cons]; exact ih (addDir g (f d))

theorem dirExists_addDir {fs : FS} {p : FPath} (h : dirExists fs p = true)
    (d : FPath) : dirExists (addDir fs d) p = true := by
  unfold dirExists addDir at *
  rcases Bool.or_eq_true_iff.mp h with h1 | h1
  · apply Bool.or_eq_true_iff.mpr
    left
    by_cases hc : fs.dirs.contains d
    · simp only [if_pos hc]
      exact h1
    · simp only [if_neg hc]
      rw [List.contains_cons]
      simp only [Bool.or_eq_true]
      exact Or.inr h1
  · exact Bool.or_eq_true_iff.mpr (Or.inr h1)

theorem filesUnder_addDir (fs : FS) (d src : FPath) :
    filesUnder (addDir fs d) src = filesUnder fs src := rfl

/-- `copyDir` success and pointwise lookup characterisation: with an
existing walk root and validation-passing paths, the copy succeeds and
afterwards a path reads as the last entry copied onto it, every other
path reading as before. -/
theorem copyDir_lookup (fs : FS) (src dest : FPath)
    (hex : dirExists fs src = true)
    (hv1 : ∀ e ∈ filesUnder fs src, validPathB e.1 = true)
    (hv2 : ∀ e ∈ filesUnder fs src, validPathB (destPathOf src dest e) = true)
    (hnd : ((filesUnder fs src).map (destPathOf src dest)).Nodup) :
    (copyDir fs src dest).2 = none ∧
    ∀ q, readFile (copyDir fs src dest).1 q =
      (match (filesUnder fs src).find? (fun e => destPathOf src dest e == q) with
       | some e => some e.2
       | none => readFile fs q) := by
  unfold copyDir
  rw [hex]
  simp only [Bool.not_true, Bool.false_eq_true, if_false]
  obtain ⟨hok, hlook⟩ := copyFold_lookup src dest (filesUnder fs src) _ hv1 hv2 hnd
  refine ⟨hok, fun q => ?_⟩
  rw [hlook q]
  cases hf : (filesUnder fs src).find? (fun e => destPathOf src dest e == q) with
  | some x => rfl
  | none =>
    apply readFile_congr_files
    rw [copyDirPrep_files]
    rfl

theorem filesUnder_copy_prereqs (fs : FS) (src dest : FPath)
    (hnodup : (fs.files.map Prod.fst).Nodup)
    (hok : ∀ e ∈ fs.files, compsOk e.1 = true)
    (hdest : compsOk dest = true) :
    (∀ e ∈ filesUnder fs src, validPathB e.1 = true) ∧
    (∀ e ∈ filesUnder fs src, validPathB (destPathOf src dest e) = true) ∧
    (∀ e ∈ filesUnder fs src, destPathOf src dest e = dest ++ e.1.drop src.length) ∧
    ((filesUnder fs src).map (destPathOf src dest)).Nodup ∧
    ((filesUnder fs src).map Prod.fst).Nodup := by
  have hkeysl : ((filesUnder fs src).map Prod.fst).Nodup :=
    ((List.filter_sublist fs.files).map Prod.fst).nodup hnodup
  have hjoin : ∀ e ∈ filesUnder fs src,
      destPathOf src dest e = dest ++ e.1.drop src.length := by
    intro e he
    exact joinP_eq_append hdest
      (compsOk_drop (hok e (mem_filesUnder.mp he).1) src.length)
  refine ⟨?_, ?_, hjoin, ?_, hkeysl⟩
  · intro e he
    exact validPathB_of_compsOk (hok e (mem_filesUnder.mp he).1)
  · intro e he
    rw [hjoin e he]
    exact validPathB_of_compsOk (compsOk_append_iff.mpr
      ⟨hdest, compsOk_drop (hok e (mem_filesUnder.mp he).1) src.length⟩)
  · apply List.Nodup.map_on
    · intro e he e' he' hde
      rw [hjoin e he, hjoin e' he'] at hde
      have hdrop := List.append_cancel_left hde
      have h1 := prefix_drop_append (mem_filesUnder.mp he).2.1
      have h2 := prefix_drop_append (mem_filesUnder.mp he').2.1
      have hp : e.1 = e'.1 := by rw [← h1, ← h2, hdrop]
      exact eq_of_mem_keys_nodup hkeysl he he' hp
    · exact hkeysl.of_map

/-- Overlay semantics of a successful `copyDir`: under the destination
the copied relative paths read as the source's files, everything else
under the destination keeps its previous content, and paths outside
the destination are untouched. -/
theorem copyDir_overlay (fs : FS) (src dest : FPath)
    (hnodup : (fs.files.map Prod.fst).Nodup)
    (hok : ∀ e ∈ fs.files, compsOk e.1 = true)
    (hdest : compsOk dest = true)
    (hex : dirExists fs src = true) :
    (copyDir fs src dest).2 = none ∧
    (∀ r : FPath, r ≠ [] →
      readFile (copyDir fs src dest).1 (dest ++ r) =
        (match readFile fs (src ++ r) with
         | some d => some d
         | none => readFile fs (dest ++ r))) ∧
    (∀ q : FPath, ¬ dest <+: q → readFile (copyDir fs src dest).1 q = readFile fs q) := by
  obtain ⟨hv1, hv2, hjoin, hnd, hkeysl⟩ :=
    filesUnder_copy_prereqs fs src dest hnodup hok hdest
  obtain ⟨hok2, hlook⟩ := copyDir_lookup fs src dest hex hv1 hv2 hnd
  refine ⟨hok2, ?_, ?_⟩
  · intro r hr
    rw [hlook (dest ++ r)]
    cases hf : (filesUnder fs src).find? (fun e => destPathOf src dest e == dest ++ r) with
    | some x =>
      have hxmem := List.mem_of_find?_eq_some hf
      have hxpred : destPathOf src dest x = dest ++ r := by
        simpa using List.find?_some hf
      rw [hjoin x hxmem] at hxpred
      have hdropx : x.1.drop src.length = r := List.append_cancel_left hxpred
      have hx1 : x.1 = src ++ r := by
        rw [← prefix_drop_append (mem_filesUnder.mp hxmem).2.1, hdropx]
      have : readFile fs (src ++ r) = some x.2 := by
        rw [← hx1]
        exact readFile_eq_some_of_mem hnodup (mem_filesUnder.mp hxmem).1
      rw [this]
    | none =>
      rw [List.find?_eq_none] at hf
      cases hsrc : readFile fs (src ++ r) with
      | none => rfl
      | some d =>
        exfalso
        have hmem : (src ++ r, d) ∈ fs.files := mem_of_readFile_eq_some hsrc
        have hmemu : (src ++ r, d) ∈ filesUnder fs src := by
          rw [mem_filesUnder]
          refine ⟨hmem, List.prefix_append src r, ?_⟩
          rw [List.length_append]
          have : r.length ≠ 0 := fun h0 => hr (List.length_eq_zero.mp h0)
          omega
        apply hf _ hmemu
        rw [hjoin _ hmemu]
        simp [List.drop_left]
  · intro q hq
    rw [hlook q]
    cases hf : (filesUnder fs src).find? (fun e => destPathOf src dest e == q) with
    | some x =>
      exfalso
      have hxmem := List.mem_of_find?_eq_some hf
      have hxpred : destPathOf src dest x = q := by
        simpa using List.find?_some hf
      rw [hjoin x hxmem] at hxpred
      exact hq (hxpred ▸ List.prefix_append dest _)
    | none => rfl

/-- A successful `copyDir` into a fresh destination appends exactly
the copied entries (in reverse walk order) to the file list. -/
theorem copyDir_files (fs : FS) (src dest : FPath)
    (hnodup : (fs.files.map Prod.fst).Nodup)
    (hok : ∀ e ∈ fs.files, compsOk e.1 = true)
    (hdest : compsOk dest = true)
    (hex : dirExists fs src = true)
    (hfresh : ∀ e ∈ filesUnder fs src, readFile fs (destPathOf src dest e) = none) :
    (copyDir fs src dest).2 = none ∧
    ((copyDir fs src dest).1).files =
      ((filesUnder fs src).map (fun e => (destPathOf src dest e, e.2))).reverse
        ++ fs.files := by
  obtain ⟨hv1, hv2, hjoin, hnd, hkeysl⟩ :=
    filesUnder_copy_prereqs fs src dest hnodup hok hdest
  unfold copyDir
  rw [hex]
  simp only [Bool.not_true, Bool.false_eq_true, if_false]
  obtain ⟨hok2, _⟩ := copyFold_lookup src dest (filesUnder fs src) _ hv1 hv2 hnd
  refine ⟨hok2, ?_⟩
  have hfreshprep : ∀ e ∈ filesUnder fs src,
      readFile ((fs.dirs.filter (fun d => src.isPrefixOf d && src.length != d.length)).foldl
        (fun a d => addDir a (joinP dest (d.drop src.length)))
        (addDir fs (joinP dest []))) (destPathOf src dest e) = none := by
    intro e he
    rw [readFile_congr_files (copyDirPrep_files (addDir fs (joinP dest [])) _ _)]
    exact hfresh e he
  rw [copyFold_files src dest (filesUnder fs src) _ hv1 hv2 hnd hfreshprep]
  rw [copyDirPrep_files]
  rfl

theorem not_prefix_append {p q : FPath} (h1 : ¬ p <+: q) (h2 : ¬ q <+: p)
    (r : FPath) : ¬ p <+: q ++ r := by
  intro hp
  rcases le_total p.length q.length with hl | hl
  · exact h1 (List.prefix_of_prefix_length_le hp (List.prefix_append q r) hl)
  · exact h2 (List.prefix_of_prefix_length_le (List.prefix_append q r) hp hl)

theorem dirExists_of_mem {fs : FS} {e : FPath × FileData} {p : FPath}
    (he : e ∈ fs.files) (hp : p <+: e.1) (hl : p.length ≠ e.1.length) :
    dirExists fs p = true := by
  unfold dirExists
  apply Bool.or_eq_true_iff.mpr
  right
  rw [List.any_eq_true]
  exact ⟨e, he, by simp [List.isPrefixOf_iff_prefix, hp, bne_iff_ne, hl]⟩

/-- C7 counterexample: `Store` does not replace the whole entry.  Over
a filesystem whose cache already holds `.buildcache/k/stale`, storing
the directory `A` (which has no file `stale`) succeeds, yet the stale
file from the prior entry is still present afterwards. -/
theorem c7_store_overlay_counterexample :
    (cacheStore "k" ["A"]
        ⟨[([".buildcache", "k", "stale"], .bytes [7]), (["A", "manifest.json"], .bytes [2])],
         [["A"]]⟩).2 = none ∧
    readFile (cacheStore "k" ["A"]
        ⟨[([".buildcache", "k", "stale"], .bytes [7]), (["A", "manifest.json"], .bytes [2])],
         [["A"]]⟩).1 [".buildcache", "k", "stale"] = some (.bytes [7]) ∧
    readFile ⟨[([".buildcache", "k", "stale"], .bytes [7]), (["A", "manifest.json"], .bytes [2])],
         [["A"]]⟩ ["A", "stale"] = none := by decide

/-- C7 amended: a successful `Store(key, A)` overlays `A`'s tree onto
the key's entry — each relative path present in `A` afterwards reads
as `A`'s file, a path of the entry absent from `A` keeps its prior
content (it is NOT removed), and paths outside the entry are
untouched.  Whole-entry replacement holds only when the prior entry
has no extra files. -/
theorem c7_store_overlay_amended (key : String) (A : FPath) (fs : FS)
    (hnodup : (fs.files.map Prod.fst).Nodup)
    (hok : ∀ e ∈ fs.files, compsOk e.1 = true)
    (hcd : compsOk (cacheDirOf key) = true)
    (hex : dirExists fs A = true) :
    (cacheStore key A fs).2 = none ∧
    (∀ r : FPath, r ≠ [] →
      readFile (cacheStore key A fs).1 (cacheDirOf key ++ r) =
        (match readFile fs (A ++ r) with
         | some d => some d
         | none => readFile fs (cacheDirOf key ++ r))) ∧
    (∀ q : FPath, ¬ cacheDirOf key <+: q →
      readFile (cacheStore key A fs).1 q = readFile fs q) := by
  have h1 := copyDir_overlay (addDir fs (cacheDirOf key)) A (cacheDirOf key)
    hnodup hok hcd (dirExists_addDir hex _)
  exact ⟨h1.1, h1.2.1, h1.2.2⟩

/-- Witness for the amended C7 over the dirty-entry filesystem of the
counterexample: the stored `manifest.json` reads back as `A`'s copy,
and the stale path keeps its prior content. -/
theorem c7_store_overlay_amended_witness :
    readFile (cacheStore "k" ["A"]
        ⟨[([".buildcache", "k", "stale"], .bytes [7]), (["A", "manifest.json"], .bytes [2])],
         [["A"]]⟩).1 (cacheDirOf "k" ++ ["manifest.json"]) =
      (match readFile ⟨[([".buildcache", "k", "stale"], .bytes [7]),
          (["A", "manifest.json"], .bytes [2])], [["A"]]⟩ (["A"] ++ ["manifest.json"]) with
       | some d => some d
       | none => readFile ⟨[([".buildcache", "k", "stale"], .bytes [7]),
          (["A", "manifest.json"], .bytes [2])], [["A"]]⟩ (cacheDirOf "k" ++ ["manifest.json"])) ∧
    readFile (cacheStore "k" ["A"]
        ⟨[([".buildcache", "k", "stale"], .bytes [7]), (["A", "manifest.json"], .bytes [2])],
         [["A"]]⟩).1 (cacheDirOf "k" ++ ["stale"]) =
      (match readFile ⟨[([".buildcache", "k", "stale"], .bytes [7]),
          (["A", "manifest.json"], .bytes [2])], [["A"]]⟩ (["A"] ++ ["stale"]) with
       | some d => some d
       | none => readFile ⟨[([".buildcache", "k", "stale"], .bytes [7]),
          (["A", "manifest.json"], .bytes [2])], [["A"]]⟩ (cacheDirOf "k" ++ ["stale"])) :=
  ⟨(c7_store_overlay_amended "k" ["A"] _ (by decide) (by decide) (by decide)
      (by decide)).2.1 ["manifest.json"] (by decide),
   (c7_store_overlay_amended "k" ["A"] _ (by decide) (by decide) (by decide)
      (by decide)).2.1 ["stale"] (by decide)⟩

/-- C5 amended: `Store(key, A)` followed by `Restore(key, B)` yields a
tree under `B` byte-identical to the tree under `A` PROVIDED the key's
entry and the destination start with no files of their own (and the
three directories are unrelated); the unconditional claim fails
because both copies overlay rather than replace (see the
counterexample).  Second half: `Restore` on a key with no cached
manifest fails with the NotFound error and leaves the filesystem
unchanged. -/
theorem c5_roundtrip_amended :
    (∀ (key : String) (A B : FPath) (fs : FS),
      (fs.files.map Prod.fst).Nodup →
      (∀ e ∈ fs.files, compsOk e.1 = true) →
      compsOk (cacheDirOf key) = true →
      compsOk B = true →
      dirExists fs A = true →
      statFile fs (A ++ ["manifest.json"]) = true →
      (∀ e ∈ fs.files, ¬ cacheDirOf key <+: e.1) →
      (∀ e ∈ fs.files, ¬ B <+: e.1) →
      ¬ B <+: cacheDirOf key → ¬ cacheDirOf key <+: B →
      (cacheStore key A fs).2 = none ∧
      (cacheRestore key B (cacheStore key A fs).1).2 = none ∧
      (∀ r : FPath, r ≠ [] →
        readFile (cacheRestore key B (cacheStore key A fs).1).1 (B ++ r) =
          readFile fs (A ++ r))) ∧
    (∀ (key : String) (dest : FPath) (fs : FS), cacheExists key fs = false →
      cacheRestore key dest fs = (fs, some ("cache key not found: " ++ key))) := by
  constructor
  · intro key A B fs hnodup hok hcd hB hex hman hfreshC hfreshB hBC hCB
    unfold cacheStore
    set cd := cacheDirOf key with hcddef
    have hstore := copyDir_overlay (addDir fs cd) A cd hnodup hok hcd
      (dirExists_addDir hex cd)
    set fsS := (copyDir (addDir fs cd) A cd).1 with hfsSdef
    have hpre := filesUnder_copy_prereqs (addDir fs cd) A cd hnodup hok hcd
    -- every read under the entry equals the corresponding read under A
    have hSread : ∀ r : FPath, r ≠ [] →
        readFile fsS (cd ++ r) = readFile fs (A ++ r) := by
      intro r hr
      rw [hstore.2.1 r hr]
      rw [readFile_addDir, readFile_addDir]
      cases hA : readFile fs (A ++ r) with
      | some d => rfl
      | none =>
        exact readFile_eq_none_of_not_mem (fun x hx hk =>
          hfreshC x hx (by rw [hk]; exact List.prefix_append cd r))
    -- reads under B are still empty after the store
    have hSB : ∀ r : FPath, readFile fsS (B ++ r) = none := by
      intro r
      rw [hstore.2.2 (B ++ r) (not_prefix_append hCB hBC r)]
      rw [readFile_addDir]
      exact readFile_eq_none_of_not_mem (fun x hx hk =>
        hfreshB x hx (by rw [hk]; exact List.prefix_append B r))
    -- the file list after the store
    have hfiles := copyDir_files (addDir fs cd) A cd hnodup hok hcd
      (dirExists_addDir hex cd)
      (fun e he => by
        rw [readFile_addDir, hpre.2.2.1 e he]
        exact readFile_eq_none_of_not_mem (fun x hx hk =>
          hfreshC x hx (by rw [hk]; exact List.prefix_append cd _)))
    -- keys are still unique after the store
    have hSnodup : (fsS.files.map Prod.fst).Nodup := by
      rw [hfiles.2, List.map_append, List.map_reverse, List.map_map]
      apply List.Nodup.append
      · rw [List.nodup_reverse]
        exact hpre.2.2.2.1
      · exact hnodup
      · intro a ha hb
        rw [List.mem_reverse, List.mem_map] at ha
        obtain ⟨e, he, rfl⟩ := ha
        rw [List.mem_map] at hb
        obtain ⟨x, hx, hxa⟩ := hb
        apply hfreshC x hx
        rw [hxa]
        show cd <+: (Prod.fst ∘ fun e => (destPathOf A cd e, e.2)) e
        rw [show (Prod.fst ∘ fun e => (destPathOf A cd e, e.2)) e
          = destPathOf A cd e from rfl, hpre.2.2.1 e he]
        exact List.prefix_append cd _
    -- all paths are still plain after the store
    have hSok : ∀ e ∈ fsS.files, compsOk e.1 = true := by
      intro e he
      rw [hfiles.2] at he
      rcases List.mem_append.mp he with hm | hm
      · rw [List.mem_reverse, List.mem_map] at hm
        obtain ⟨x, hx, rfl⟩ := hm
        show compsOk (destPathOf A cd x) = true
        rw [hpre.2.2.1 x hx]
        exact compsOk_append_iff.mpr
          ⟨hcd, compsOk_drop (hok x (mem_filesUnder.mp hx).1) A.length⟩
      · exact hok e hm
    -- the stored manifest makes the entry discoverable
    have hSman : cacheExists key fsS = true := by
      unfold cacheExists statFile
      rw [← hcddef, joinP_eq_append hcd (by decide)]
      rw [hSread ["manifest.json"] (by decide)]
      exact hman
    -- the cache entry directory exists for the restore walk
    have hexS : dirExists (addDir fsS B) cd = true := by
      apply dirExists_addDir
      have hsome : (readFile fsS (cd ++ ["manifest.json"])).isSome = true := by
        rw [hSread ["manifest.json"] (by decide)]
        exact hman
      obtain ⟨d, hd⟩ := Option.isSome_iff_exists.mp hsome
      exact dirExists_of_mem (mem_of_readFile_eq_some hd)
        (List.prefix_append cd _) (by simp)
    have hrestore := copyDir_overlay (addDir fsS B) cd B hSnodup hSok hB hexS
    refine ⟨hstore.1, ?_, ?_⟩
    · unfold cacheRestore
      rw [hSman]
      simp only [Bool.not_true, Bool.false_eq_true, if_false]
      exact hrestore.1
    · intro r hr
      unfold cacheRestore
      rw [hSman]
      simp only [Bool.not_true, Bool.false_eq_true, if_false]
      rw [hrestore.2.1 r hr]
      rw [readFile_addDir, readFile_addDir]
      rw [hSread r hr]
      cases hA : readFile fs (A ++ r) with
      | some d => rfl
      | none => exact hSB r
  · intro key dest fs h
    unfold cacheRestore
    rw [h]
    rfl

/-- C5 counterexample: over a filesystem whose cache already holds
`.buildcache/k/stale`, `Store("k", A)` (with `A` manifest-bearing and
without `stale`) and then `Restore("k", B)` both succeed, yet the tree
restored under `B` contains `stale` while `A` does not — the trees are
not byte-identical, refuting the unconditional round-trip claim. -/
theorem c5_roundtrip_counterexample :
    (cacheStore "k" ["A"]
        ⟨[([".buildcache", "k", "stale"], .bytes [7]), (["A", "manifest.json"], .bytes [2])],
         [["A"]]⟩).2 = none ∧
    (cacheRestore "k" ["B"] (cacheStore "k" ["A"]
        ⟨[([".buildcache", "k", "stale"], .bytes [7]), (["A", "manifest.json"], .bytes [2])],
         [["A"]]⟩).1).2 = none ∧
    readFile (cacheRestore "k" ["B"] (cacheStore "k" ["A"]
        ⟨[([".buildcache", "k", "stale"], .bytes [7]), (["A", "manifest.json"], .bytes [2])],
         [["A"]]⟩).1).1 ["B", "stale"] = some (.bytes [7]) ∧
    readFile (cacheRestore "k" ["B"] (cacheStore "k" ["A"]
        ⟨[([".buildcache", "k", "stale"], .bytes [7]), (["A", "manifest.json"], .bytes [2])],
         [["A"]]⟩).1).1 ["A", "stale"] = none := by decide

/-- A clean workspace for the round-trip witness: a manifest-bearing
tree under `A`, no cache entry, no files under `B`. -/
def c5wfs : FS :=
  ⟨[(["A", "manifest.json"], .bytes [2]), (["A", "sub", "x.bin"], .bytes [1, 2])], [["A"]]⟩

/-- Witness for the amended C5: on the clean workspace the restored
file under `B` is byte-identical to `A`'s, and `Restore` of an unknown
key returns NotFound leaving the filesystem unchanged. -/
theorem c5_roundtrip_amended_witness :
    readFile (cacheRestore "k" ["B"] (cacheStore "k" ["A"] c5wfs).1).1
        (["B"] ++ ["sub", "x.bin"]) = readFile c5wfs (["A"] ++ ["sub", "x.bin"]) ∧
    cacheRestore "missing" ["out"] ⟨[], []⟩ =
      (⟨[], []⟩, some ("cache key not found: " ++ "missing")) :=
  ⟨(c5_roundtrip_amended.1 "k" ["A"] ["B"] c5wfs (by decide) (by decide) (by decide)
      (by decide) (by decide) (by decide) (by decide) (by decide) (by decide)
      (by decide)).2.2 ["sub", "x.bin"] (by decide),
   c5_roundtrip_amended.2 "missing" ["out"] ⟨[], []⟩ (by decide)⟩
